import Mathlib

/-!
# Graceful-shutdown signal handler (`internal/cmd/rootcmd/signal.go`)

A shallow embedding of `SetupSignalHandler` and of the goroutine it starts.

* The process state holds the package-level `mutex`, the handlers installed so
  far (cancellation context, signal channel, `signal.Notify` registration and
  the watcher goroutine), a logical clock in nanoseconds and the exit status.
* `SetupSignalHandler` is the call itself, `SetupSignalHandler.step` the same
  call statement by statement (for interleavings of concurrent callers).
* `Handler.step` is one statement of the goroutine; `Process.step` interleaves
  goroutine steps with signal deliveries, clock ticks and further calls.

Library semantics assumed: `sync.Mutex.TryLock` is an atomic test-and-set;
`signal.Notify` sends without blocking and drops a signal when the channel is
full; a receive on an empty channel blocks; `time.After d` is ready once the
clock has reached the instant of the call plus `d`; `select` with several ready
cases may take any of them; `os.Exit` ends the process. The default disposition
of a signal nobody registered for is outside the model.
-/

namespace Rootcmd

/-- The two values of `os.Signal` the package registers for. -/
inductive Signal where
  | Interrupt
  | SIGTERM
deriving DecidableEq, Repr

/-- Line 20: `shutdownSignals = []os.Signal{os.Interrupt, syscall.SIGTERM}`. -/
def shutdownSignals : List Signal := [Signal.Interrupt, Signal.SIGTERM]

/-- Go `error` values, identified by their message. -/
abbrev Error := String

/-- The fields of `manager.Config` that `SetupSignalHandler` reads. `TermDelay`
is a `time.Duration`, a signed count of nanoseconds. -/
structure Config where
  LogLevel : String
  LogFormat : String
  TermDelay : Int
deriving DecidableEq, Repr

/-- The logger built by `util.MakeLogger` and wrapped by `logrusr.New`. -/
structure Logger where
  id : Nat
deriving DecidableEq, Repr

/-- One `logger.Info` call: the message and the key/value pairs passed. -/
structure LogEntry where
  msg : String
  graceful_period : Option Int
  signal : Option Signal
deriving DecidableEq, Repr

/-- What the watcher goroutine does, in program order (a history variable). -/
inductive Event where
  | recv (sig : Signal)
  | info (e : LogEntry)
  | cancel
  | wait (timer : Option Int)
  | timerFired
  | exit (code : Int)
deriving DecidableEq, Repr

/-- The result of `context.WithCancel(context.Background())`: the context's
done flag, and how many times its cancel function has been invoked. -/
structure Token where
  cancelled : Bool
  cancelCalls : Nat
deriving DecidableEq, Repr

/-- Invoking the cancel function of a context. -/
def Token.cancel (t : Token) : Token :=
  { cancelled := true, cancelCalls := t.cancelCalls + 1 }

/-- A buffered `chan os.Signal`. -/
structure Chan where
  cap : Nat
  buf : List Signal
deriving DecidableEq, Repr

/-- The non-blocking send done by package `signal`: the new channel, and
whether the signal was accepted. -/
def Chan.trySend (c : Chan) (sig : Signal) : Chan × Bool :=
  if c.buf.length < c.cap then ({ c with buf := c.buf ++ [sig] }, true) else (c, false)

/-- The program counter of the goroutine of lines 43-64. -/
inductive PC where
  | recvFirst
  | logFirst (sig : Signal)
  | cancel
  | branch
  | selectWait (timer : Int)
  | recvSecond
  | logTimer
  | logSignal (sig : Signal)
  | exit
  | exited
deriving DecidableEq, Repr

/-- The goroutine: its program counter, the variables it captured and the
events it has performed so far, each with the clock value. -/
structure Watcher where
  cfg : Config
  logger : Logger
  pc : PC
  trace : List (Int × Event)
deriving DecidableEq, Repr

/-- Everything one successful `SetupSignalHandler` call creates. `delivered`
and `dropped` are history variables: every signal the operating system sent to
the channel, with its arrival time, and how many of them found it full. -/
structure Handler where
  ctx : Token
  c : Chan
  registered : List Signal
  delivered : List (Int × Signal)
  dropped : Nat
  goroutine : Option Watcher
deriving DecidableEq, Repr

/-- The process: the package-level `mutex` (true when locked), the handlers
installed, the clock, and the exit status once `os.Exit` has been called. -/
structure Process where
  mutex : Bool
  handlers : List Handler
  now : Int
  exited : Option Int
deriving DecidableEq, Repr

/-- A process that has just started. -/
def Process.boot : Process :=
  { mutex := false, handlers := [], now := 0, exited := none }

/-- Line 30: the message of the error returned when the mutex is taken. -/
def errOnce : Error := "signal handler can only be setup once"

/-- The goroutine as `go func()` starts it. -/
def Watcher.start (cfg : Config) (logger : Logger) : Watcher :=
  { cfg := cfg, logger := logger, pc := PC.recvFirst, trace := [] }

/-- Lines 27-67, as one uninterrupted call. The result is the error, or the
index of the handler whose context is returned. `MakeLogger` stands for
`util.MakeLogger`. -/
def SetupSignalHandler (MakeLogger : String → String → Except Error Logger)
    (cfg : Config) (p : Process) : Except Error Nat × Process :=
  if p.mutex then
    (Except.error errOnce, p)
  else
    let p1 : Process := { p with mutex := true }
    match MakeLogger cfg.LogLevel cfg.LogFormat with
    | Except.error err => (Except.error err, p1)
    | Except.ok logger =>
      let ctx : Token := { cancelled := false, cancelCalls := 0 }
      let c : Chan := { cap := 2, buf := [] }
      let h : Handler :=
        { ctx := ctx, c := c, registered := shutdownSignals, delivered := [], dropped := 0,
          goroutine := some (Watcher.start cfg logger) }
      (Except.ok p1.handlers.length, { p1 with handlers := p1.handlers ++ [h] })

/-- Line 45. -/
def logShuttingDown (cfg : Config) (sig : Signal) : LogEntry :=
  { msg := "Signal received, shutting down",
    graceful_period := some cfg.TermDelay, signal := some sig }

/-- Line 54. -/
def logGracePassed (cfg : Config) : LogEntry :=
  { msg := "Graceful termination period has passed, exiting immediately",
    graceful_period := some cfg.TermDelay, signal := none }

/-- Lines 56 and 60. -/
def logSecondSignal (sig : Signal) : LogEntry :=
  { msg := "Signal received during graceful shutdown, exiting immediately",
    graceful_period := none, signal := some sig }

/-- The goroutine moves to `pc`, having performed `ev` at time `now`. -/
def Watcher.goto (w : Watcher) (now : Int) (pc : PC) (ev : Event) : Watcher :=
  { w with pc := pc, trace := w.trace ++ [(now, ev)] }

/-- One statement of the goroutine of lines 43-64 at clock value `now`; a
blocked statement leaves the handler as it is. `timerFirst` settles a `select`
both of whose cases are ready. The second component is the status passed to
`os.Exit`, when that is the statement executed. -/
def Handler.step (now : Int) (timerFirst : Bool) (h : Handler) : Handler × Option Int :=
  match h.goroutine with
  | none => (h, none)
  | some w =>
    match w.pc with
    | PC.recvFirst =>
      match h.c.buf with
      | [] => (h, none)
      | sig :: rest =>
        ({ h with c := { h.c with buf := rest },
                  goroutine := some (w.goto now (PC.logFirst sig) (Event.recv sig)) }, none)
    | PC.logFirst sig =>
      let w1 := w.goto now PC.cancel (Event.info (logShuttingDown w.cfg sig))
      ({ h with goroutine := some w1 }, none)
    | PC.cancel =>
      ({ h with ctx := h.ctx.cancel,
                goroutine := some (w.goto now PC.branch Event.cancel) }, none)
    | PC.branch =>
      if w.cfg.TermDelay ≠ 0 then
        let timer := now + w.cfg.TermDelay
        ({ h with goroutine :=
                    some (w.goto now (PC.selectWait timer) (Event.wait (some timer))) }, none)
      else
        ({ h with goroutine := some (w.goto now PC.recvSecond (Event.wait none)) }, none)
    | PC.selectWait timer =>
      match h.c.buf with
      | [] =>
        if timer ≤ now then
          ({ h with goroutine := some (w.goto now PC.logTimer Event.timerFired) }, none)
        else (h, none)
      | sig :: rest =>
        if timer ≤ now ∧ timerFirst = true then
          ({ h with goroutine := some (w.goto now PC.logTimer Event.timerFired) }, none)
        else
          ({ h with c := { h.c with buf := rest },
                    goroutine := some (w.goto now (PC.logSignal sig) (Event.recv sig)) }, none)
    | PC.recvSecond =>
      match h.c.buf with
      | [] => (h, none)
      | sig :: rest =>
        ({ h with c := { h.c with buf := rest },
                  goroutine := some (w.goto now (PC.logSignal sig) (Event.recv sig)) }, none)
    | PC.logTimer =>
      let w1 := w.goto now PC.exit (Event.info (logGracePassed w.cfg))
      ({ h with goroutine := some w1 }, none)
    | PC.logSignal sig =>
      let w1 := w.goto now PC.exit (Event.info (logSecondSignal sig))
      ({ h with goroutine := some w1 }, none)
    | PC.exit =>
      ({ h with goroutine := some (w.goto now PC.exited (Event.exit 1)) }, some 1)
    | PC.exited => (h, none)

/-- The operating system delivers `sig` at time `now`: package `signal` sends
it, without blocking, to the channel if the channel is registered for it. -/
def Handler.deliver (now : Int) (sig : Signal) (h : Handler) : Handler :=
  if sig ∈ h.registered then
    { h with c := (h.c.trySend sig).1,
             delivered := h.delivered ++ [(now, sig)],
             dropped := if (h.c.trySend sig).2 then h.dropped else h.dropped + 1 }
  else h

/-- What can happen to the process next. -/
inductive Action where
  | call (cfg : Config)
  | deliver (sig : Signal)
  | tick
  | run (i : Nat) (timerFirst : Bool)
deriving DecidableEq, Repr

/-- One action on the process; nothing happens once the process has exited.
`call` is a `SetupSignalHandler` call whose result is not looked at, `tick` is
one nanosecond passing, `run i` one statement of the goroutine of handler `i`. -/
def Process.step (MakeLogger : String → String → Except Error Logger)
    (p : Process) (a : Action) : Process :=
  if p.exited.isSome then p
  else
    match a with
    | Action.call cfg => (SetupSignalHandler MakeLogger cfg p).2
    | Action.deliver sig => { p with handlers := p.handlers.map (Handler.deliver p.now sig) }
    | Action.tick => { p with now := p.now + 1 }
    | Action.run i timerFirst =>
      match p.handlers[i]? with
      | none => p
      | some h =>
        { p with handlers := p.handlers.set i (h.step p.now timerFirst).1,
                 exited := (h.step p.now timerFirst).2 }

/-- Run a schedule of actions, in order. -/
def exec (MakeLogger : String → String → Except Error Logger)
    (sched : List Action) (p : Process) : Process :=
  sched.foldl (Process.step MakeLogger) p

/-! ## The call, statement by statement -/

deriving instance DecidableEq for Except

/-- Where a `SetupSignalHandler` call in progress stands: the statement to be
executed next, with the local variables that are live there. `done` holds the
value returned. -/
inductive SetupPC where
  | tryLock
  | makeLogger
  | withCancel (logger : Logger)
  | makeChan (logger : Logger) (ctx : Token)
  | notify (logger : Logger) (ctx : Token) (c : Chan)
  | spawn (logger : Logger) (h : Nat)
  | ret (h : Nat)
  | done (result : Except Error Nat)
deriving DecidableEq, Repr

/-- A call in progress on some thread. -/
structure Frame where
  cfg : Config
  pc : SetupPC
deriving DecidableEq, Repr

/-- A call that has just been entered. -/
def Frame.enter (cfg : Config) : Frame := { cfg := cfg, pc := SetupPC.tryLock }

/-- What the call returned, once it has returned. -/
def Frame.result (f : Frame) : Option (Except Error Nat) :=
  match f.pc with
  | SetupPC.done r => some r
  | _ => none

/-- One statement of `SetupSignalHandler` (lines 29, 33, 39, 41, 42, 43, 66).
`mutex.TryLock()` tests and sets the mutex in one step. The channel becomes
visible to the process when `signal.Notify` registers it. -/
def SetupSignalHandler.step (MakeLogger : String → String → Except Error Logger)
    (f : Frame) (p : Process) : Frame × Process :=
  match f.pc with
  | SetupPC.tryLock =>
    if p.mutex then ({ f with pc := SetupPC.done (Except.error errOnce) }, p)
    else ({ f with pc := SetupPC.makeLogger }, { p with mutex := true })
  | SetupPC.makeLogger =>
    match MakeLogger f.cfg.LogLevel f.cfg.LogFormat with
    | Except.error err => ({ f with pc := SetupPC.done (Except.error err) }, p)
    | Except.ok logger => ({ f with pc := SetupPC.withCancel logger }, p)
  | SetupPC.withCancel logger =>
    ({ f with pc := SetupPC.makeChan logger { cancelled := false, cancelCalls := 0 } }, p)
  | SetupPC.makeChan logger ctx =>
    ({ f with pc := SetupPC.notify logger ctx { cap := 2, buf := [] } }, p)
  | SetupPC.notify logger ctx c =>
    let h : Handler :=
      { ctx := ctx, c := c, registered := shutdownSignals, delivered := [], dropped := 0,
        goroutine := none }
    ({ f with pc := SetupPC.spawn logger p.handlers.length },
     { p with handlers := p.handlers ++ [h] })
  | SetupPC.spawn logger i =>
    let start : Handler → Handler :=
      fun h => { h with goroutine := some (Watcher.start f.cfg logger) }
    ({ f with pc := SetupPC.ret i }, { p with handlers := List.modify start i p.handlers })
  | SetupPC.ret i => ({ f with pc := SetupPC.done (Except.ok i) }, p)
  | SetupPC.done _ => (f, p)

/-- Two calls in progress on two threads of one process. -/
structure Race where
  first : Frame
  second : Frame
  proc : Process
deriving DecidableEq, Repr

/-- The thread chosen (`true` for the second) executes its next statement. -/
def Race.step (MakeLogger : String → String → Except Error Logger)
    (r : Race) (pick : Bool) : Race :=
  if pick then
    { r with second := (SetupSignalHandler.step MakeLogger r.second r.proc).1,
             proc := (SetupSignalHandler.step MakeLogger r.second r.proc).2 }
  else
    { r with first := (SetupSignalHandler.step MakeLogger r.first r.proc).1,
             proc := (SetupSignalHandler.step MakeLogger r.first r.proc).2 }

/-- An interleaving of the two calls: who moves at each step. -/
def Race.run (MakeLogger : String → String → Except Error Logger)
    (sched : List Bool) (r : Race) : Race :=
  sched.foldl (Race.step MakeLogger) r

/-- Two threads entering `SetupSignalHandler` in process `p`. -/
def Race.enter (cfg1 cfg2 : Config) (p : Process) : Race :=
  { first := Frame.enter cfg1, second := Frame.enter cfg2, proc := p }

/-- A call has returned a context. -/
def Frame.succeeded (f : Frame) : Bool :=
  match f.pc with
  | SetupPC.done (Except.ok _) => true
  | _ => false

/-- A call has returned an error. -/
def Frame.failed (f : Frame) : Bool :=
  match f.pc with
  | SetupPC.done (Except.error _) => true
  | _ => false

/-- The call has locked the mutex and has not failed since. -/
def Frame.winning (f : Frame) : Bool :=
  match f.pc with
  | SetupPC.tryLock => false
  | SetupPC.done (Except.error _) => false
  | _ => true

/-- The call has not tried the mutex yet, or has found it locked. -/
def Frame.losing (f : Frame) : Bool :=
  match f.pc with
  | SetupPC.tryLock => true
  | SetupPC.done (Except.error e) => decide (e = errOnce)
  | _ => false

/-- How many statements a call still has to execute, at most. -/
def SetupPC.remaining : SetupPC → Nat
  | SetupPC.tryLock => 7
  | SetupPC.makeLogger => 6
  | SetupPC.withCancel _ => 5
  | SetupPC.makeChan _ _ => 4
  | SetupPC.notify _ _ _ => 3
  | SetupPC.spawn _ _ => 2
  | SetupPC.ret _ => 1
  | SetupPC.done _ => 0

/-- What holds of two racing calls at every moment: while the mutex is free
neither has tried it; once it is locked exactly one of them has locked it. -/
def Race.guarded (r : Race) : Prop :=
  (r.proc.mutex = false ∧ r.first.pc = SetupPC.tryLock ∧ r.second.pc = SetupPC.tryLock)
  ∨ (r.proc.mutex = true ∧
      ((r.first.winning = true ∧ r.second.losing = true)
        ∨ (r.first.losing = true ∧ r.second.winning = true)))

/-! ## What holds of the goroutine at every moment -/

/-- The signals the goroutine has read from the channel so far. -/
def received (trace : List (Int × Event)) : List Signal :=
  trace.filterMap fun x =>
    match x.2 with
    | Event.recv sig => some sig
    | _ => none

/-- The timer the grace-period wait entered at time `d` uses, if any
(line 51: none when `cfg.TermDelay` is zero). -/
def timerOf (cfg : Config) (d : Int) : Option Int :=
  if cfg.TermDelay ≠ 0 then some (d + cfg.TermDelay) else none

/-- The data of one complete run of the goroutine: the first signal, the time
of each of its seven events, and the second signal if it is a signal (and not
the timer) that ends the wait. -/
structure Run where
  s : Signal
  a : Int
  b : Int
  c : Int
  d : Int
  e : Int
  f : Int
  g : Int
  second : Option Signal
deriving DecidableEq, Repr

/-- The event that ends the grace-period wait. -/
def Run.wake (r : Run) : Event :=
  match r.second with
  | none => Event.timerFired
  | some s2 => Event.recv s2

/-- The message logged after the wait. -/
def Run.farewell (cfg : Config) (r : Run) : LogEntry :=
  match r.second with
  | none => logGracePassed cfg
  | some s2 => logSecondSignal s2

/-- The seven events of a complete run, in program order: read the first
signal, log it, cancel the context, enter the wait, leave the wait, log why,
exit with status 1. -/
def Run.events (cfg : Config) (r : Run) : List (Int × Event) :=
  [(r.a, Event.recv r.s),
   (r.b, Event.info (logShuttingDown cfg r.s)),
   (r.c, Event.cancel),
   (r.d, Event.wait (timerOf cfg r.d)),
   (r.e, r.wake),
   (r.f, Event.info (r.farewell cfg)),
   (r.g, Event.exit 1)]

/-- How many events the goroutine has performed when it stands at `pc`. -/
def PC.rank : PC → Nat
  | PC.recvFirst => 0
  | PC.logFirst _ => 1
  | PC.cancel => 2
  | PC.branch => 3
  | PC.selectWait _ => 4
  | PC.recvSecond => 4
  | PC.logTimer => 5
  | PC.logSignal _ => 5
  | PC.exit => 6
  | PC.exited => 7

/-- The first signal delivered is `s`, and it had arrived by time `a`. -/
def FirstArrival (D : List (Int × Signal)) (s : Signal) (a : Int) : Prop :=
  ∃ t0 rest, D = (t0, s) :: rest ∧ t0 ≤ a

/-- The second signal delivered is `s2`, and it had arrived by time `e`. -/
def SecondArrival (D : List (Int × Signal)) (s2 : Signal) (e : Int) : Prop :=
  ∃ x t2 rest, D = x :: (t2, s2) :: rest ∧ t2 ≤ e

/-- How the wait of run `r` ended: by the timer, no sooner than `TermDelay`
after the wait began, or by the second signal delivered, after it arrived. -/
def Run.Woken (cfg : Config) (D : List (Int × Signal)) (r : Run) : Prop :=
  match r.second with
  | none => cfg.TermDelay ≠ 0 ∧ r.d + cfg.TermDelay ≤ r.e
  | some s2 => SecondArrival D s2 r.e

/-- The run data agree with the program counter and with the deliveries. -/
def Run.Agrees (cfg : Config) (D : List (Int × Signal)) (now : Int) (r : Run) :
    PC → Prop
  | PC.recvFirst => True
  | PC.logFirst sig => r.s = sig ∧ FirstArrival D r.s r.a
  | PC.cancel => FirstArrival D r.s r.a
  | PC.branch => FirstArrival D r.s r.a
  | PC.selectWait timer =>
    FirstArrival D r.s r.a ∧ cfg.TermDelay ≠ 0 ∧ timer = r.d + cfg.TermDelay
  | PC.recvSecond => FirstArrival D r.s r.a ∧ cfg.TermDelay = 0
  | PC.logTimer => FirstArrival D r.s r.a ∧ r.second = none ∧ r.Woken cfg D
  | PC.logSignal sig => FirstArrival D r.s r.a ∧ r.second = some sig ∧ r.Woken cfg D
  | PC.exit => FirstArrival D r.s r.a ∧ r.Woken cfg D
  | PC.exited => FirstArrival D r.s r.a ∧ r.Woken cfg D ∧ r.g = now

/-- What holds of a handler installed by `SetupSignalHandler cfg`, its
goroutine `w`, the clock and the exit status at every moment; `r` is the run
the goroutine is part-way through. -/
structure Sound (cfg : Config) (h : Handler) (w : Watcher) (now : Int)
    (exited : Option Int) (r : Run) : Prop where
  gor : h.goroutine = some w
  cfg_eq : w.cfg = cfg
  cap : h.c.cap = 2
  reg : h.registered = shutdownSignals
  len : (received w.trace).length + h.c.buf.length + h.dropped = h.delivered.length
  first2 : (received w.trace ++ h.c.buf).take 2 = (h.delivered.map Prod.snd).take 2
  drop : 0 < h.dropped → 2 ≤ (received w.trace).length + h.c.buf.length
  full : h.c.buf.length ≤ 2
  arrived : ∀ x ∈ h.delivered, x.1 ≤ now
  sorted : List.Pairwise (fun x y : Int => x ≤ y) (w.trace.map Prod.fst ++ [now])
  trace : w.trace = (r.events cfg).take w.pc.rank
  ctx : h.ctx = if 3 ≤ w.pc.rank then { cancelled := true, cancelCalls := 1 }
                else { cancelled := false, cancelCalls := 0 }
  exited : exited = if w.pc = PC.exited then some 1 else none
  agrees : r.Agrees cfg h.delivered now w.pc

/-- The process has exactly the handler of one successful
`SetupSignalHandler cfg` call, in a sound state, and the mutex is locked. -/
def Process.Sound (cfg : Config) (p : Process) : Prop :=
  p.mutex = true ∧ ∃ h w r, p.handlers = [h] ∧ Rootcmd.Sound cfg h w p.now p.exited r

/-- How many events the goroutine of a handler has performed. -/
def Handler.rank (h : Handler) : Nat :=
  match h.goroutine with
  | some w => w.pc.rank
  | none => 0

/-- How many events the goroutine of the only handler has performed. -/
def Process.rank (p : Process) : Nat :=
  match p.handlers with
  | [h] => h.rank
  | _ => 0

/-- The signals delivered so far to the only handler, with their arrival times. -/
def Process.delivered (p : Process) : List (Int × Signal) :=
  match p.handlers with
  | [h] => h.delivered
  | _ => []

/-- The goroutine of `h` can execute its next statement at time `now`: it is
not waiting on an empty channel, nor on an empty channel and a timer still to
fire, and it has not exited. -/
def Handler.enabled (now : Int) (h : Handler) : Prop :=
  match h.goroutine with
  | none => False
  | some w =>
    match w.pc with
    | PC.recvFirst => h.c.buf ≠ []
    | PC.recvSecond => h.c.buf ≠ []
    | PC.selectWait timer => h.c.buf ≠ [] ∨ timer ≤ now
    | PC.exited => False
    | _ => True

/-! ## Runs of the process -/

/-- The process after the actions `pre` since start-up, a call of
`SetupSignalHandler cfg`, and then the actions `sched`. -/
def Process.after (MakeLogger : String → String → Except Error Logger) (cfg : Config)
    (pre sched : List Action) : Process :=
  exec MakeLogger sched (SetupSignalHandler MakeLogger cfg (exec MakeLogger pre Process.boot)).2

/-- The goroutine of the first handler executes one statement for each element
of `bs`, and nothing else happens: no delivery, no clock tick. -/
def runs (bs : List Bool) : List Action := bs.map (Action.run 0)

/-- What the world outside does to the process. -/
inductive Env where
  | deliver (sig : Signal)
  | tick
deriving DecidableEq, Repr

/-- An outside event as an action on the process. -/
def Env.action : Env → Action
  | Env.deliver sig => Action.deliver sig
  | Env.tick => Action.tick

/-- The schedule in which the goroutine reacts at once: after every delivery
and every clock tick it executes seven statements, which is all it has, so it
runs until it blocks or exits before anything else happens. -/
def prompt (timerFirst : Bool) : List Env → List Action
  | [] => []
  | e :: rest =>
    (e.action :: List.replicate 7 (Action.run 0 timerFirst)) ++ prompt timerFirst rest

/-! ## The situations of a prompt run -/

/-- The handler as `SetupSignalHandler cfg` leaves it, at clock value `now`:
no signal delivered, the goroutine at its first statement. -/
def armedAt (cfg : Config) (logger : Logger) (now : Int) : Process :=
  { mutex := true,
    handlers :=
      [{ ctx := { cancelled := false, cancelCalls := 0 },
         c := { cap := 2, buf := [] },
         registered := shutdownSignals,
         delivered := [], dropped := 0,
         goroutine := some { cfg := cfg, logger := logger, pc := PC.recvFirst, trace := [] } }],
    now := now, exited := none }

/-- What the goroutine has done, all at time `t0`, when it enters the `select`
after receiving `s`. -/
def traceToWait (cfg : Config) (t0 : Int) (s : Signal) : List (Int × Event) :=
  [(t0, Event.recv s), (t0, Event.info (logShuttingDown cfg s)), (t0, Event.cancel),
   (t0, Event.wait (some (t0 + cfg.TermDelay)))]

/-- The first signal `s` arrived at `t0` and was handled there and then: the
context is cancelled and the goroutine waits in the `select` for the timer set
for `t0 + cfg.TermDelay` or a second signal. -/
def waitingAt (cfg : Config) (logger : Logger) (t0 : Int) (s : Signal) (now : Int) :
    Process :=
  { mutex := true,
    handlers :=
      [{ ctx := { cancelled := true, cancelCalls := 1 },
         c := { cap := 2, buf := [] },
         registered := shutdownSignals,
         delivered := [(t0, s)], dropped := 0,
         goroutine := some { cfg := cfg, logger := logger,
                             pc := PC.selectWait (t0 + cfg.TermDelay),
                             trace := traceToWait cfg t0 s } }],
    now := now, exited := none }

/-- The timer fired at `t0 + cfg.TermDelay` and the process exited there and
then with status 1. -/
def timedOutAt (cfg : Config) (logger : Logger) (t0 : Int) (s : Signal) : Process :=
  { mutex := true,
    handlers :=
      [{ ctx := { cancelled := true, cancelCalls := 1 },
         c := { cap := 2, buf := [] },
         registered := shutdownSignals,
         delivered := [(t0, s)], dropped := 0,
         goroutine := some { cfg := cfg, logger := logger, pc := PC.exited,
                             trace := traceToWait cfg t0 s ++
                               [(t0 + cfg.TermDelay, Event.timerFired),
                                (t0 + cfg.TermDelay, Event.info (logGracePassed cfg)),
                                (t0 + cfg.TermDelay, Event.exit 1)] } }],
    now := t0 + cfg.TermDelay, exited := some 1 }

/-- The second signal `s2` arrived at `t2` and the process exited there and
then with status 1. -/
def interruptedAt (cfg : Config) (logger : Logger) (t0 : Int) (s : Signal) (t2 : Int)
    (s2 : Signal) : Process :=
  { mutex := true,
    handlers :=
      [{ ctx := { cancelled := true, cancelCalls := 1 },
         c := { cap := 2, buf := [] },
         registered := shutdownSignals,
         delivered := [(t0, s), (t2, s2)], dropped := 0,
         goroutine := some { cfg := cfg, logger := logger, pc := PC.exited,
                             trace := traceToWait cfg t0 s ++
                               [(t2, Event.recv s2),
                                (t2, Event.info (logSecondSignal s2)),
                                (t2, Event.exit 1)] } }],
    now := t2, exited := some 1 }

/-- The situations a run can be in when the goroutine reacts at once. -/
def Prompt (cfg : Config) (logger : Logger) (p : Process) : Prop :=
  (∃ now, p = armedAt cfg logger now)
  ∨ (∃ (t0 : Int) (s : Signal) (now : Int),
      t0 ≤ now ∧ now < t0 + cfg.TermDelay ∧ p = waitingAt cfg logger t0 s now)
  ∨ (∃ t0 s, p = timedOutAt cfg logger t0 s)
  ∨ (∃ (t0 : Int) (s : Signal) (t2 : Int) (s2 : Signal),
      t0 ≤ t2 ∧ t2 < t0 + cfg.TermDelay ∧ p = interruptedAt cfg logger t0 s t2 s2)

/-! ## Sample inputs -/

/-- A logging collaborator that knows the level "info" only. -/
def sampleMakeLogger : String → String → Except Error Logger :=
  fun level _ =>
    if level = "info" then Except.ok { id := 0 } else Except.error "unknown log level"

/-- A configuration with a grace period of two nanoseconds. -/
def sampleConfig : Config := { LogLevel := "info", LogFormat := "text", TermDelay := 2 }

/-- A configuration with no grace period. -/
def sampleConfigZero : Config := { LogLevel := "info", LogFormat := "text", TermDelay := 0 }

/-- A configuration whose log level the sample collaborator rejects. -/
def sampleConfigBad : Config := { LogLevel := "loud", LogFormat := "text", TermDelay := 2 }

/-! ## Basic facts about schedules and the mutex -/

theorem exec_nil (ML : String → String → Except Error Logger) (p : Process) :
    exec ML [] p = p := rfl

theorem exec_cons (ML : String → String → Except Error Logger) (a : Action)
    (sched : List Action) (p : Process) :
    exec ML (a :: sched) p = exec ML sched (Process.step ML p a) := rfl

theorem exec_append (ML : String → String → Except Error Logger)
    (s1 s2 : List Action) (p : Process) :
    exec ML (s1 ++ s2) p = exec ML s2 (exec ML s1 p) := by
  simp [exec, List.foldl_append]

/-- A call that finds the mutex locked fails and changes nothing. -/
theorem setup_locked (ML : String → String → Except Error Logger) (cfg : Config)
    (p : Process) (hm : p.mutex = true) :
    SetupSignalHandler ML cfg p = (Except.error errOnce, p) := by
  simp [SetupSignalHandler, hm]

/-- Nothing unlocks the mutex: the source has no `Unlock`. -/
theorem setup_mutex (ML : String → String → Except Error Logger) (cfg : Config)
    (p : Process) : (SetupSignalHandler ML cfg p).2.mutex = true := by
  unfold SetupSignalHandler
  by_cases hm : p.mutex = true
  · simp [hm]
  · simp only [hm]
    cases ML cfg.LogLevel cfg.LogFormat <;> simp

theorem step_mutex (ML : String → String → Except Error Logger) (p : Process)
    (a : Action) (hm : p.mutex = true) : (Process.step ML p a).mutex = true := by
  unfold Process.step
  split
  · exact hm
  · cases a with
    | call cfg => exact setup_mutex ML cfg p
    | deliver sig => exact hm
    | tick => exact hm
    | run i b =>
      simp only
      split <;> exact hm

theorem exec_mutex (ML : String → String → Except Error Logger) (sched : List Action)
    (p : Process) (hm : p.mutex = true) : (exec ML sched p).mutex = true := by
  induction sched generalizing p with
  | nil => exact hm
  | cons a rest ih => exact ih _ (step_mutex ML p a hm)

/-- A call succeeds only from an unlocked mutex. -/
theorem setup_ok_unlocked (ML : String → String → Except Error Logger) (cfg : Config)
    (p : Process) (i : Nat) (h : (SetupSignalHandler ML cfg p).1 = Except.ok i) :
    p.mutex = false := by
  by_cases hm : p.mutex = true
  · rw [setup_locked ML cfg p hm] at h
    cases h
  · simpa using hm

/-- A successful call, spelled out: it locks the mutex and appends one handler
with a fresh context, an empty channel of capacity 2 registered for the two
shutdown signals, and the goroutine at its first statement. -/
theorem setup_ok_eq (ML : String → String → Except Error Logger) (cfg : Config)
    (logger : Logger) (p : Process) (hm : p.mutex = false)
    (hlog : ML cfg.LogLevel cfg.LogFormat = Except.ok logger) :
    SetupSignalHandler ML cfg p =
      (Except.ok p.handlers.length,
       { p with
         mutex := true,
         handlers := p.handlers ++
           [{ ctx := { cancelled := false, cancelCalls := 0 },
              c := { cap := 2, buf := [] },
              registered := [Signal.Interrupt, Signal.SIGTERM],
              delivered := [], dropped := 0,
              goroutine := some { cfg := cfg, logger := logger, pc := PC.recvFirst,
                                  trace := [] } }] }) := by
  simp [SetupSignalHandler, hm, hlog, Watcher.start, shutdownSignals]

/-- A call whose logger cannot be built, spelled out. -/
theorem setup_logger_error_eq (ML : String → String → Except Error Logger) (cfg : Config)
    (e : Error) (p : Process) (hm : p.mutex = false)
    (hlog : ML cfg.LogLevel cfg.LogFormat = Except.error e) :
    SetupSignalHandler ML cfg p = (Except.error e, { p with mutex := true }) := by
  simp [SetupSignalHandler, hm, hlog]

theorem step_exited (ML : String → String → Except Error Logger) (p : Process)
    (a : Action) (code : Int) (hx : p.exited = some code) : Process.step ML p a = p := by
  simp [Process.step, hx]

theorem step_call (ML : String → String → Except Error Logger) (p : Process)
    (cfg : Config) (hx : p.exited = none) :
    Process.step ML p (Action.call cfg) = (SetupSignalHandler ML cfg p).2 := by
  simp [Process.step, hx]

theorem step_deliver (ML : String → String → Except Error Logger) (p : Process)
    (sig : Signal) (hx : p.exited = none) :
    Process.step ML p (Action.deliver sig) =
      { p with handlers := p.handlers.map (Handler.deliver p.now sig) } := by
  simp [Process.step, hx]

theorem step_tick (ML : String → String → Except Error Logger) (p : Process)
    (hx : p.exited = none) :
    Process.step ML p Action.tick = { p with now := p.now + 1 } := by
  simp [Process.step, hx]

/-- While the mutex is free no handler has been installed, and the process,
having no goroutine that could call `os.Exit`, is alive. -/
theorem step_unlocked_idle (ML : String → String → Except Error Logger) (p : Process)
    (a : Action) (hinv : p.mutex = false → p.handlers = [] ∧ p.exited = none) :
    (Process.step ML p a).mutex = false →
      (Process.step ML p a).handlers = [] ∧ (Process.step ML p a).exited = none := by
  intro hm
  by_cases hp : p.mutex = true
  · rw [step_mutex ML p a hp] at hm
    cases hm
  · have hpf : p.mutex = false := by simpa using hp
    have hh := (hinv hpf).1
    have hx := (hinv hpf).2
    cases a with
    | call cfg =>
      rw [step_call ML p cfg hx, setup_mutex ML cfg p] at hm
      cases hm
    | deliver sig => rw [step_deliver ML p sig hx]; simp [hh, hx]
    | tick => rw [step_tick ML p hx]; exact ⟨hh, hx⟩
    | run i b => simp [Process.step, hx, hh]

theorem exec_unlocked_idle (ML : String → String → Except Error Logger)
    (sched : List Action) (p : Process)
    (hinv : p.mutex = false → p.handlers = [] ∧ p.exited = none) :
    (exec ML sched p).mutex = false →
      (exec ML sched p).handlers = [] ∧ (exec ML sched p).exited = none := by
  induction sched generalizing p with
  | nil => exact hinv
  | cons a rest ih => exact ih _ (step_unlocked_idle ML p a hinv)

theorem boot_unlocked_handlers (ML : String → String → Except Error Logger)
    (sched : List Action) (hm : (exec ML sched Process.boot).mutex = false) :
    (exec ML sched Process.boot).handlers = [] :=
  (exec_unlocked_idle ML sched Process.boot (fun _ => ⟨rfl, rfl⟩) hm).1

theorem boot_unlocked_live (ML : String → String → Except Error Logger)
    (sched : List Action) (hm : (exec ML sched Process.boot).mutex = false) :
    (exec ML sched Process.boot).exited = none :=
  (exec_unlocked_idle ML sched Process.boot (fun _ => ⟨rfl, rfl⟩) hm).2

/-- Seven statements of one thread amount to the uninterrupted call. -/
theorem setup_steps_eq_call (ML : String → String → Except Error Logger) (cfg : Config)
    (p : Process) :
    ∃ f, Frame.result f = some (SetupSignalHandler ML cfg p).1 ∧
      (fun s : Frame × Process => SetupSignalHandler.step ML s.1 s.2)^[7] (Frame.enter cfg, p)
        = (f, (SetupSignalHandler ML cfg p).2) := by
  by_cases hm : p.mutex = true
  · refine ⟨{ cfg := cfg, pc := SetupPC.done (Except.error errOnce) }, ?_, ?_⟩
    · simp [Frame.result, setup_locked ML cfg p hm]
    · simp [Function.iterate_succ, SetupSignalHandler.step, Frame.enter, hm,
        setup_locked ML cfg p hm]
  · have hmf : p.mutex = false := by simpa using hm
    cases hlog : ML cfg.LogLevel cfg.LogFormat with
    | error e =>
      refine ⟨{ cfg := cfg, pc := SetupPC.done (Except.error e) }, ?_, ?_⟩
      · simp [Frame.result, setup_logger_error_eq ML cfg e p hmf hlog]
      · simp [Function.iterate_succ, SetupSignalHandler.step, Frame.enter, hmf, hlog,
          setup_logger_error_eq ML cfg e p hmf hlog]
    | ok logger =>
      refine ⟨{ cfg := cfg, pc := SetupPC.done (Except.ok p.handlers.length) }, ?_, ?_⟩
      · simp [Frame.result, setup_ok_eq ML cfg logger p hmf hlog]
      · simp [Function.iterate_succ, SetupSignalHandler.step, Frame.enter, hmf, hlog,
          setup_ok_eq ML cfg logger p hmf hlog, Watcher.start, shutdownSignals,
          List.modify_eq_set_get?]

/-- With the mutex locked, no action installs or removes a handler. -/
theorem step_locked_length (ML : String → String → Except Error Logger) (p : Process)
    (a : Action) (hm : p.mutex = true) :
    (Process.step ML p a).handlers.length = p.handlers.length := by
  cases hx : p.exited with
  | some code => rw [step_exited ML p a code hx]
  | none =>
    cases a with
    | call cfg => rw [step_call ML p cfg hx, setup_locked ML cfg p hm]
    | deliver sig => rw [step_deliver ML p sig hx]; simp
    | tick => rw [step_tick ML p hx]
    | run i b =>
      simp only [Process.step, hx, Option.isSome_none, Bool.false_eq_true, if_false]
      split <;> simp

theorem exec_locked_length (ML : String → String → Except Error Logger)
    (sched : List Action) (p : Process) (hm : p.mutex = true) :
    (exec ML sched p).handlers.length = p.handlers.length := by
  induction sched generalizing p with
  | nil => rfl
  | cons a rest ih =>
    rw [exec_cons, ih _ (step_mutex ML p a hm), step_locked_length ML p a hm]

/-! ## The call: claims C5, C6, C7 and C10 -/

/-- C5: once a call has succeeded, whatever the process does next, a further
call with any configuration returns no context and the error "signal handler
can only be setup once", and leaves the process state exactly as it found it:
no further registration, context or goroutine, and the mutex still locked. -/
theorem setup_second_call_rejected (ML : String → String → Except Error Logger)
    (p0 : Process) (cfg0 cfg : Config) (i : Nat) (post : List Action)
    (hok : (SetupSignalHandler ML cfg0 p0).1 = Except.ok i) :
    SetupSignalHandler ML cfg (exec ML post (SetupSignalHandler ML cfg0 p0).2)
        = (Except.error "signal handler can only be setup once",
           exec ML post (SetupSignalHandler ML cfg0 p0).2)
      ∧ (exec ML post (SetupSignalHandler ML cfg0 p0).2).mutex = true
      ∧ (exec ML post (SetupSignalHandler ML cfg0 p0).2).handlers.length
          = p0.handlers.length + 1
      ∧ i = p0.handlers.length := by
  have hm := exec_mutex ML post _ (setup_mutex ML cfg0 p0)
  refine ⟨setup_locked ML cfg _ hm, hm, ?_, ?_⟩
  · rw [exec_locked_length ML post _ (setup_mutex ML cfg0 p0)]
    have hu := setup_ok_unlocked ML cfg0 p0 i hok
    cases hlog : ML cfg0.LogLevel cfg0.LogFormat with
    | error e =>
      rw [setup_logger_error_eq ML cfg0 e p0 hu hlog] at hok
      cases hok
    | ok logger =>
      rw [setup_ok_eq ML cfg0 logger p0 hu hlog]
      simp
  · have hu := setup_ok_unlocked ML cfg0 p0 i hok
    cases hlog : ML cfg0.LogLevel cfg0.LogFormat with
    | error e =>
      rw [setup_logger_error_eq ML cfg0 e p0 hu hlog] at hok
      cases hok
    | ok logger =>
      rw [setup_ok_eq ML cfg0 logger p0 hu hlog] at hok
      injection hok with h1
      exact h1.symm

theorem setup_second_call_rejected_witness :
    (SetupSignalHandler sampleMakeLogger sampleConfig Process.boot).1 = Except.ok 0
    ∧ SetupSignalHandler sampleMakeLogger sampleConfigZero
        (exec sampleMakeLogger [Action.deliver Signal.Interrupt, Action.run 0 true]
          (SetupSignalHandler sampleMakeLogger sampleConfig Process.boot).2)
        = (Except.error "signal handler can only be setup once",
           exec sampleMakeLogger [Action.deliver Signal.Interrupt, Action.run 0 true]
             (SetupSignalHandler sampleMakeLogger sampleConfig Process.boot).2) :=
  ⟨by decide,
   (setup_second_call_rejected sampleMakeLogger Process.boot sampleConfig sampleConfigZero 0
      [Action.deliver Signal.Interrupt, Action.run 0 true] (by decide)).1⟩

/-- C6: with the mutex free, a call whose logger cannot be built returns no
context and the collaborator's error as it is; it installs no handler (no
context, no channel registration, no goroutine) and only locks the mutex. -/
theorem setup_logger_error_propagated (ML : String → String → Except Error Logger)
    (cfg : Config) (e : Error) (p : Process) (hm : p.mutex = false)
    (hlog : ML cfg.LogLevel cfg.LogFormat = Except.error e) :
    (SetupSignalHandler ML cfg p).1 = Except.error e
      ∧ (SetupSignalHandler ML cfg p).2.handlers = p.handlers
      ∧ (SetupSignalHandler ML cfg p).2 = { p with mutex := true } := by
  rw [setup_logger_error_eq ML cfg e p hm hlog]
  exact ⟨rfl, rfl, rfl⟩

theorem setup_logger_error_propagated_witness :
    Process.boot.mutex = false
    ∧ sampleMakeLogger sampleConfigBad.LogLevel sampleConfigBad.LogFormat
        = Except.error "unknown log level"
    ∧ (SetupSignalHandler sampleMakeLogger sampleConfigBad Process.boot).1
        = Except.error "unknown log level"
    ∧ (SetupSignalHandler sampleMakeLogger sampleConfigBad Process.boot).2.handlers = [] :=
  ⟨by decide, by decide,
   (setup_logger_error_propagated sampleMakeLogger sampleConfigBad "unknown log level"
      Process.boot (by decide) (by decide)).1,
   (setup_logger_error_propagated sampleMakeLogger sampleConfigBad "unknown log level"
      Process.boot (by decide) (by decide)).2.1⟩

/-- C7: in a process whose mutex is still free (however it got there from
start-up), a call whose logger can be built returns a context and no error;
afterwards the process has exactly one handler: its context is not cancelled
and its cancel function has not been invoked, its channel is empty with
capacity 2 and registered for exactly the interrupt and terminate signals, and
its goroutine stands at its first statement, having done nothing yet. -/
theorem setup_first_call_arms (ML : String → String → Except Error Logger)
    (cfg : Config) (logger : Logger) (pre : List Action)
    (hm : (exec ML pre Process.boot).mutex = false)
    (hlog : ML cfg.LogLevel cfg.LogFormat = Except.ok logger) :
    (SetupSignalHandler ML cfg (exec ML pre Process.boot)).1 = Except.ok 0
      ∧ (SetupSignalHandler ML cfg (exec ML pre Process.boot)).2.handlers =
          [{ ctx := { cancelled := false, cancelCalls := 0 },
             c := { cap := 2, buf := [] },
             registered := [Signal.Interrupt, Signal.SIGTERM],
             delivered := [], dropped := 0,
             goroutine := some { cfg := cfg, logger := logger, pc := PC.recvFirst,
                                 trace := [] } }]
      ∧ (SetupSignalHandler ML cfg (exec ML pre Process.boot)).2.mutex = true
      ∧ (SetupSignalHandler ML cfg (exec ML pre Process.boot)).2.exited
          = (exec ML pre Process.boot).exited := by
  have hh := boot_unlocked_handlers ML pre hm
  rw [setup_ok_eq ML cfg logger _ hm hlog]
  simp [hh]

theorem setup_first_call_arms_witness :
    (exec sampleMakeLogger [Action.tick, Action.deliver Signal.SIGTERM] Process.boot).mutex
        = false
    ∧ sampleMakeLogger sampleConfig.LogLevel sampleConfig.LogFormat = Except.ok { id := 0 }
    ∧ (SetupSignalHandler sampleMakeLogger sampleConfig
        (exec sampleMakeLogger [Action.tick, Action.deliver Signal.SIGTERM] Process.boot)).1
        = Except.ok 0 :=
  ⟨by decide, by decide,
   (setup_first_call_arms sampleMakeLogger sampleConfig { id := 0 }
      [Action.tick, Action.deliver Signal.SIGTERM] (by decide) (by decide)).1⟩

/-- C10: the mutex is locked by the first statement of the call, before the
logger is built, and nothing unlocks it. So after a call that failed because
the logger could not be built, whatever the process does next, every further
call with any configuration returns "signal handler can only be setup once",
and the process never has a handler, although no call has succeeded. -/
theorem setup_logger_error_locks_forever (ML : String → String → Except Error Logger)
    (cfg0 cfg : Config) (e : Error) (pre post : List Action)
    (hm : (exec ML pre Process.boot).mutex = false)
    (hlog : ML cfg0.LogLevel cfg0.LogFormat = Except.error e) :
    SetupSignalHandler.step ML (Frame.enter cfg0) (exec ML pre Process.boot)
        = ({ cfg := cfg0, pc := SetupPC.makeLogger },
           { exec ML pre Process.boot with mutex := true })
      ∧ (SetupSignalHandler ML cfg0 (exec ML pre Process.boot)).1 = Except.error e
      ∧ SetupSignalHandler ML cfg
          (exec ML post (SetupSignalHandler ML cfg0 (exec ML pre Process.boot)).2)
          = (Except.error "signal handler can only be setup once",
             exec ML post (SetupSignalHandler ML cfg0 (exec ML pre Process.boot)).2)
      ∧ (exec ML post (SetupSignalHandler ML cfg0 (exec ML pre Process.boot)).2).handlers
          = [] := by
  have hh := boot_unlocked_handlers ML pre hm
  have hlock := exec_mutex ML post _ (setup_mutex ML cfg0 (exec ML pre Process.boot))
  refine ⟨by simp [SetupSignalHandler.step, Frame.enter, hm], ?_, setup_locked ML cfg _ hlock, ?_⟩
  · rw [setup_logger_error_eq ML cfg0 e _ hm hlog]
  · have hlen := exec_locked_length ML post _ (setup_mutex ML cfg0 (exec ML pre Process.boot))
    rw [setup_logger_error_eq ML cfg0 e _ hm hlog] at hlen
    simp only [hh, List.length_nil] at hlen
    rw [setup_logger_error_eq ML cfg0 e _ hm hlog]
    simp only [hh]
    exact List.length_eq_zero.mp hlen

theorem setup_logger_error_locks_forever_witness :
    (exec sampleMakeLogger [] Process.boot).mutex = false
    ∧ sampleMakeLogger sampleConfigBad.LogLevel sampleConfigBad.LogFormat
        = Except.error "unknown log level"
    ∧ SetupSignalHandler sampleMakeLogger sampleConfig
        (exec sampleMakeLogger [Action.tick]
          (SetupSignalHandler sampleMakeLogger sampleConfigBad
            (exec sampleMakeLogger [] Process.boot)).2)
        = (Except.error "signal handler can only be setup once",
           exec sampleMakeLogger [Action.tick]
             (SetupSignalHandler sampleMakeLogger sampleConfigBad
               (exec sampleMakeLogger [] Process.boot)).2) :=
  ⟨by decide, by decide,
   (setup_logger_error_locks_forever sampleMakeLogger sampleConfigBad sampleConfig
      "unknown log level" [] [Action.tick] (by decide) (by decide)).2.2.1⟩

/-! ## Two concurrent calls: claim C8 -/

theorem setup_step_cfg (ML : String → String → Except Error Logger) (f : Frame)
    (p : Process) : (SetupSignalHandler.step ML f p).1.cfg = f.cfg := by
  unfold SetupSignalHandler.step
  split <;> try rfl
  · split <;> rfl
  · split <;> rfl

/-- The call that holds the mutex goes on holding it and leaves it locked. -/
theorem setup_step_winning (ML : String → String → Except Error Logger) (f : Frame)
    (p : Process) (logger : Logger)
    (hlog : ML f.cfg.LogLevel f.cfg.LogFormat = Except.ok logger)
    (hw : f.winning = true) :
    (SetupSignalHandler.step ML f p).1.winning = true
      ∧ (SetupSignalHandler.step ML f p).2.mutex = p.mutex := by
  rcases f with ⟨cfg, pc⟩
  cases pc with
  | tryLock => simp [Frame.winning] at hw
  | makeLogger =>
    simp only at hlog
    simp [SetupSignalHandler.step, hlog, Frame.winning]
  | done r =>
    cases r with
    | error e => simp [Frame.winning] at hw
    | ok i => simp [SetupSignalHandler.step, Frame.winning]
  | _ => simp [SetupSignalHandler.step, Frame.winning]

/-- A call that meets a locked mutex fails with the "once" error, and a call
that has failed stays so; neither touches the process. -/
theorem setup_step_losing (ML : String → String → Except Error Logger) (f : Frame)
    (p : Process) (hm : p.mutex = true) (hl : f.losing = true) :
    (SetupSignalHandler.step ML f p).1.losing = true
      ∧ (SetupSignalHandler.step ML f p).2 = p := by
  rcases f with ⟨cfg, pc⟩
  cases pc with
  | tryLock => simp [SetupSignalHandler.step, hm, Frame.losing]
  | done r =>
    cases r with
    | error e => simpa [SetupSignalHandler.step, Frame.losing] using hl
    | ok i => simp [Frame.losing] at hl
  | _ => simp [Frame.losing] at hl

/-- The first call to try a free mutex locks it. -/
theorem setup_step_claim (ML : String → String → Except Error Logger) (f : Frame)
    (p : Process) (hm : p.mutex = false) (hpc : f.pc = SetupPC.tryLock) :
    (SetupSignalHandler.step ML f p).1.winning = true
      ∧ (SetupSignalHandler.step ML f p).2.mutex = true := by
  rcases f with ⟨cfg, pc⟩
  simp only at hpc
  subst hpc
  simp [SetupSignalHandler.step, hm, Frame.winning]

theorem tryLock_losing (f : Frame) (hpc : f.pc = SetupPC.tryLock) : f.losing = true := by
  simp [Frame.losing, hpc]

theorem race_step_guarded (ML : String → String → Except Error Logger) (r : Race)
    (pick : Bool) (l1 l2 : Logger)
    (h1 : ML r.first.cfg.LogLevel r.first.cfg.LogFormat = Except.ok l1)
    (h2 : ML r.second.cfg.LogLevel r.second.cfg.LogFormat = Except.ok l2)
    (hg : r.guarded) : (Race.step ML r pick).guarded := by
  unfold Race.guarded at hg ⊢
  cases pick with
  | true =>
    simp only [Race.step, if_true]
    rcases hg with ⟨hm, hf, hs⟩ | ⟨hm, ⟨hw, hl⟩ | ⟨hl, hw⟩⟩
    · have := setup_step_claim ML r.second r.proc hm hs
      exact Or.inr ⟨this.2, Or.inr ⟨tryLock_losing _ hf, this.1⟩⟩
    · have := setup_step_losing ML r.second r.proc hm hl
      rw [this.2]
      exact Or.inr ⟨hm, Or.inl ⟨hw, this.1⟩⟩
    · have := setup_step_winning ML r.second r.proc l2 h2 hw
      rw [this.2]
      exact Or.inr ⟨hm, Or.inr ⟨hl, this.1⟩⟩
  | false =>
    simp only [Race.step, Bool.false_eq_true, if_false]
    rcases hg with ⟨hm, hf, hs⟩ | ⟨hm, ⟨hw, hl⟩ | ⟨hl, hw⟩⟩
    · have := setup_step_claim ML r.first r.proc hm hf
      exact Or.inr ⟨this.2, Or.inl ⟨this.1, tryLock_losing _ hs⟩⟩
    · have := setup_step_winning ML r.first r.proc l1 h1 hw
      rw [this.2]
      exact Or.inr ⟨hm, Or.inl ⟨this.1, hl⟩⟩
    · have := setup_step_losing ML r.first r.proc hm hl
      rw [this.2]
      exact Or.inr ⟨hm, Or.inr ⟨this.1, hw⟩⟩

theorem race_step_cfg (ML : String → String → Except Error Logger) (r : Race)
    (pick : Bool) :
    (Race.step ML r pick).first.cfg = r.first.cfg
      ∧ (Race.step ML r pick).second.cfg = r.second.cfg := by
  cases pick <;> simp [Race.step, setup_step_cfg]

theorem race_run_guarded (ML : String → String → Except Error Logger)
    (sched : List Bool) (r : Race) (l1 l2 : Logger)
    (h1 : ML r.first.cfg.LogLevel r.first.cfg.LogFormat = Except.ok l1)
    (h2 : ML r.second.cfg.LogLevel r.second.cfg.LogFormat = Except.ok l2)
    (hg : r.guarded) : (Race.run ML sched r).guarded := by
  induction sched generalizing r with
  | nil => exact hg
  | cons pick rest ih =>
    have hc := race_step_cfg ML r pick
    exact ih (Race.step ML r pick) (by rw [hc.1]; exact h1) (by rw [hc.2]; exact h2)
      (race_step_guarded ML r pick l1 l2 h1 h2 hg)

/-- Every statement executed brings the call one step closer to returning. -/
theorem setup_step_remaining (ML : String → String → Except Error Logger) (f : Frame)
    (p : Process) :
    (SetupSignalHandler.step ML f p).1.pc.remaining ≤ f.pc.remaining - 1 := by
  rcases f with ⟨cfg, pc⟩
  cases pc with
  | tryLock =>
    by_cases hm : p.mutex = true <;> simp [SetupSignalHandler.step, hm, SetupPC.remaining]
  | makeLogger =>
    cases hlog : ML cfg.LogLevel cfg.LogFormat <;>
      simp [SetupSignalHandler.step, hlog, SetupPC.remaining]
  | _ => simp [SetupSignalHandler.step, SetupPC.remaining]

theorem race_run_remaining (ML : String → String → Except Error Logger)
    (sched : List Bool) (r : Race) :
    (Race.run ML sched r).first.pc.remaining ≤ r.first.pc.remaining - sched.count false
      ∧ (Race.run ML sched r).second.pc.remaining
          ≤ r.second.pc.remaining - sched.count true := by
  induction sched generalizing r with
  | nil => simp [Race.run]
  | cons pick rest ih =>
    have ih1 := ih (Race.step ML r pick)
    have hrun : Race.run ML (pick :: rest) r = Race.run ML rest (Race.step ML r pick) := rfl
    rw [hrun]
    cases pick with
    | true =>
      have hs := setup_step_remaining ML r.second r.proc
      have e1 : (Race.step ML r true).first = r.first := by simp [Race.step]
      have e2 : (Race.step ML r true).second = (SetupSignalHandler.step ML r.second r.proc).1 := by
        simp [Race.step]
      rw [e1, e2] at ih1
      simp only [List.count_cons, beq_self_eq_true, if_true, Bool.true_beq, Bool.false_beq,
        Bool.not_true, Bool.not_false, Bool.false_eq_true, if_false, Nat.add_zero]
      omega
    | false =>
      have hs := setup_step_remaining ML r.first r.proc
      have e1 : (Race.step ML r false).second = r.second := by simp [Race.step]
      have e2 : (Race.step ML r false).first = (SetupSignalHandler.step ML r.first r.proc).1 := by
        simp [Race.step]
      rw [e1, e2] at ih1
      simp only [List.count_cons, beq_self_eq_true, if_true, Bool.true_beq, Bool.false_beq,
        Bool.not_true, Bool.not_false, Bool.false_eq_true, if_false, Nat.add_zero]
      omega

theorem remaining_zero_done (pc : SetupPC) (h : pc.remaining = 0) :
    ∃ r, pc = SetupPC.done r := by
  cases pc <;> simp [SetupPC.remaining] at h
  exact ⟨_, rfl⟩

theorem losing_not_succeeded (f : Frame) (h : f.losing = true) : f.succeeded = false := by
  rcases f with ⟨cfg, pc⟩
  cases pc with
  | done r => cases r <;> simp_all [Frame.losing, Frame.succeeded]
  | _ => simp_all [Frame.losing, Frame.succeeded]

theorem winning_not_failed (f : Frame) (h : f.winning = true) : f.failed = false := by
  rcases f with ⟨cfg, pc⟩
  cases pc with
  | done r => cases r <;> simp_all [Frame.winning, Frame.failed]
  | _ => simp_all [Frame.winning, Frame.failed]

theorem winning_done (f : Frame) (h : f.winning = true) (hr : f.pc.remaining = 0) :
    ∃ i, f.result = some (Except.ok i) := by
  rcases f with ⟨cfg, pc⟩
  cases pc with
  | done r =>
    cases r with
    | error e => simp [Frame.winning] at h
    | ok i => exact ⟨i, rfl⟩
  | _ => simp [SetupPC.remaining] at hr

theorem losing_done (f : Frame) (h : f.losing = true) (hr : f.pc.remaining = 0) :
    f.result = some (Except.error errOnce) := by
  rcases f with ⟨cfg, pc⟩
  cases pc with
  | done r =>
    cases r with
    | error e =>
      have : e = errOnce := by simpa [Frame.losing] using h
      subst this
      rfl
    | ok i => simp [Frame.losing] at h
  | _ => simp [SetupPC.remaining] at hr

/-- C8: two threads call `SetupSignalHandler` in a process that has just
started, with configurations whose logger can be built; `TryLock` tests and
sets the mutex in one step. Under every interleaving of their statements it is
never the case that both calls have returned a context, nor that both have
returned an error; and once each thread has been given its seven statements,
one call has returned a context and the other the error "signal handler can
only be setup once". -/
theorem setup_race_exactly_one (ML : String → String → Except Error Logger)
    (cfg1 cfg2 : Config) (l1 l2 : Logger) (sched : List Bool)
    (h1 : ML cfg1.LogLevel cfg1.LogFormat = Except.ok l1)
    (h2 : ML cfg2.LogLevel cfg2.LogFormat = Except.ok l2) :
    ¬ ((Race.run ML sched (Race.enter cfg1 cfg2 Process.boot)).first.succeeded = true
        ∧ (Race.run ML sched (Race.enter cfg1 cfg2 Process.boot)).second.succeeded = true)
    ∧ ¬ ((Race.run ML sched (Race.enter cfg1 cfg2 Process.boot)).first.failed = true
        ∧ (Race.run ML sched (Race.enter cfg1 cfg2 Process.boot)).second.failed = true)
    ∧ (7 ≤ sched.count false → 7 ≤ sched.count true →
        ((∃ i, (Race.run ML sched (Race.enter cfg1 cfg2 Process.boot)).first.result
                  = some (Except.ok i))
          ∧ (Race.run ML sched (Race.enter cfg1 cfg2 Process.boot)).second.result
              = some (Except.error "signal handler can only be setup once"))
        ∨ ((Race.run ML sched (Race.enter cfg1 cfg2 Process.boot)).first.result
              = some (Except.error "signal handler can only be setup once")
          ∧ ∃ i, (Race.run ML sched (Race.enter cfg1 cfg2 Process.boot)).second.result
                  = some (Except.ok i))) := by
  have hg : (Race.run ML sched (Race.enter cfg1 cfg2 Process.boot)).guarded :=
    race_run_guarded ML sched (Race.enter cfg1 cfg2 Process.boot) l1 l2 h1 h2
      (Or.inl ⟨rfl, rfl, rfl⟩)
  have hrem := race_run_remaining ML sched (Race.enter cfg1 cfg2 Process.boot)
  generalize Race.run ML sched (Race.enter cfg1 cfg2 Process.boot) = r at hg hrem
  have e1 : (Race.enter cfg1 cfg2 Process.boot).first.pc.remaining = 7 := rfl
  have e2 : (Race.enter cfg1 cfg2 Process.boot).second.pc.remaining = 7 := rfl
  rw [e1, e2] at hrem
  refine ⟨?_, ?_, ?_⟩
  · rintro ⟨ha, hb⟩
    rcases hg with ⟨_, hf, _⟩ | ⟨_, ⟨_, hl⟩ | ⟨hl, _⟩⟩
    · simp [Frame.succeeded, hf] at ha
    · rw [losing_not_succeeded _ hl] at hb
      cases hb
    · rw [losing_not_succeeded _ hl] at ha
      cases ha
  · rintro ⟨ha, hb⟩
    rcases hg with ⟨_, hf, _⟩ | ⟨_, ⟨hw, _⟩ | ⟨_, hw⟩⟩
    · simp [Frame.failed, hf] at ha
    · rw [winning_not_failed _ hw] at ha
      cases ha
    · rw [winning_not_failed _ hw] at hb
      cases hb
  · intro hc1 hc2
    have r1 : r.first.pc.remaining = 0 := by omega
    have r2 : r.second.pc.remaining = 0 := by omega
    rcases hg with ⟨_, hf, _⟩ | ⟨_, ⟨hw, hl⟩ | ⟨hl, hw⟩⟩
    · rw [hf] at r1
      simp [SetupPC.remaining] at r1
    · exact Or.inl ⟨winning_done _ hw r1, losing_done _ hl r2⟩
    · exact Or.inr ⟨losing_done _ hl r1, winning_done _ hw r2⟩

theorem setup_race_exactly_one_witness :
    sampleMakeLogger sampleConfig.LogLevel sampleConfig.LogFormat = Except.ok { id := 0 }
    ∧ sampleMakeLogger sampleConfigZero.LogLevel sampleConfigZero.LogFormat
        = Except.ok { id := 0 }
    ∧ ¬ ((Race.run sampleMakeLogger
            [true, false, false, true, false, true, true, false, false, false, true, true,
             false, true]
            (Race.enter sampleConfig sampleConfigZero Process.boot)).first.failed = true
        ∧ (Race.run sampleMakeLogger
            [true, false, false, true, false, true, true, false, false, false, true, true,
             false, true]
            (Race.enter sampleConfig sampleConfigZero Process.boot)).second.failed = true) :=
  ⟨by decide, by decide,
   (setup_race_exactly_one sampleMakeLogger sampleConfig sampleConfigZero { id := 0 }
      { id := 0 }
      [true, false, false, true, false, true, true, false, false, false, true, true,
       false, true] (by decide) (by decide)).2.1⟩

/-! ## The goroutine: the invariant -/

theorem mem_shutdownSignals (sig : Signal) : sig ∈ shutdownSignals := by
  cases sig <;> simp [shutdownSignals]

theorem firstArrival_append (D : List (Int × Signal)) (x : Int × Signal) (s : Signal)
    (a : Int) (h : FirstArrival D s a) : FirstArrival (D ++ [x]) s a := by
  obtain ⟨t0, rest, hD, ht⟩ := h
  exact ⟨t0, rest ++ [x], by simp [hD], ht⟩

theorem secondArrival_append (D : List (Int × Signal)) (x : Int × Signal) (s : Signal)
    (e : Int) (h : SecondArrival D s e) : SecondArrival (D ++ [x]) s e := by
  obtain ⟨y, t2, rest, hD, ht⟩ := h
  exact ⟨y, t2, rest ++ [x], by simp [hD], ht⟩

theorem woken_append (cfg : Config) (D : List (Int × Signal)) (x : Int × Signal) (r : Run)
    (h : r.Woken cfg D) : r.Woken cfg (D ++ [x]) := by
  unfold Run.Woken at h ⊢
  cases hs : r.second with
  | none => simpa [hs] using h
  | some s2 =>
    simp only [hs] at h ⊢
    exact secondArrival_append D x s2 r.e h

theorem agrees_append (cfg : Config) (D : List (Int × Signal)) (x : Int × Signal)
    (now : Int) (r : Run) (pc : PC) (h : r.Agrees cfg D now pc) :
    r.Agrees cfg (D ++ [x]) now pc := by
  cases pc with
  | recvFirst => trivial
  | logFirst sig => exact ⟨h.1, firstArrival_append D x _ _ h.2⟩
  | cancel => exact firstArrival_append D x _ _ h
  | branch => exact firstArrival_append D x _ _ h
  | selectWait timer => exact ⟨firstArrival_append D x _ _ h.1, h.2⟩
  | recvSecond => exact ⟨firstArrival_append D x _ _ h.1, h.2⟩
  | logTimer => exact ⟨firstArrival_append D x _ _ h.1, h.2.1, woken_append cfg D x r h.2.2⟩
  | logSignal sig =>
    exact ⟨firstArrival_append D x _ _ h.1, h.2.1, woken_append cfg D x r h.2.2⟩
  | exit => exact ⟨firstArrival_append D x _ _ h.1, woken_append cfg D x r h.2⟩
  | exited =>
    exact ⟨firstArrival_append D x _ _ h.1, woken_append cfg D x r h.2.1, h.2.2⟩

/-- Two lists that agree on their first two elements still do after the same
element is appended to both, provided the shorter one is the whole of the
longer one whenever it has fewer than two elements. -/
theorem take_two_append {α : Type} (X Y : List α) (z : α)
    (h2 : X.take 2 = Y.take 2) (hlen : X.length ≤ Y.length)
    (hsame : X.length < 2 → X.length = Y.length) :
    (X ++ [z]).take 2 = (Y ++ [z]).take 2 := by
  by_cases hX : X.length < 2
  · have hY : Y.length < 2 := by have := hsame hX; omega
    have e1 : X.take 2 = X := List.take_of_length_le (by omega)
    have e2 : Y.take 2 = Y := List.take_of_length_le (by omega)
    rw [e1, e2] at h2
    rw [h2]
  · rw [List.take_append_of_le_length (by omega), List.take_append_of_le_length (by omega)]
    exact h2

theorem take_two_append_right {α : Type} (X Y : List α) (z : α)
    (h2 : X.take 2 = Y.take 2) (hlen : 2 ≤ Y.length) :
    X.take 2 = (Y ++ [z]).take 2 := by
  rw [List.take_append_of_le_length hlen]
  exact h2

/-- A delivery keeps the invariant. -/
theorem Sound.deliver {cfg : Config} {h : Handler} {w : Watcher} {now : Int}
    {exited : Option Int} {r : Run} (hs : Sound cfg h w now exited r) (sig : Signal) :
    Sound cfg (h.deliver now sig) w now exited r := by
  have hreg : sig ∈ h.registered := by rw [hs.reg]; exact mem_shutdownSignals sig
  have hlen := hs.len
  have hdrop := hs.drop
  have hfull := hs.full
  by_cases hroom : h.c.buf.length < 2
  · have e : h.deliver now sig =
        { h with c := { h.c with buf := h.c.buf ++ [sig] },
                 delivered := h.delivered ++ [(now, sig)] } := by
      simp [Handler.deliver, hreg, Chan.trySend, hs.cap, hroom]
    rw [e]
    refine { hs with len := ?_, first2 := ?_, drop := ?_, full := ?_, arrived := ?_,
                     agrees := ?_ }
    · simp only [List.length_append, List.length_singleton]
      omega
    · simp only [List.map_append, List.map_cons, List.map_nil]
      rw [← List.append_assoc]
      apply take_two_append _ _ _ hs.first2
      · simp only [List.length_append, List.length_map]; omega
      · simp only [List.length_append, List.length_map]
        intro hlt
        by_cases hd : 0 < h.dropped
        · have := hdrop hd; omega
        · omega
    · simp only [List.length_append, List.length_singleton]
      intro hd
      have := hdrop hd
      omega
    · simp only [List.length_append, List.length_singleton]
      omega
    · intro x hx
      rcases List.mem_append.mp hx with hx | hx
      · exact hs.arrived x hx
      · simp only [List.mem_singleton] at hx
        subst hx
        exact le_refl _
    · exact agrees_append cfg _ _ now r w.pc hs.agrees
  · have e : h.deliver now sig =
        { h with delivered := h.delivered ++ [(now, sig)], dropped := h.dropped + 1 } := by
      simp [Handler.deliver, hreg, Chan.trySend, hs.cap, hroom]
    rw [e]
    refine { hs with len := ?_, first2 := ?_, drop := ?_, arrived := ?_, agrees := ?_ }
    · simp only [List.length_append, List.length_singleton]
      omega
    · simp only [List.map_append, List.map_cons, List.map_nil]
      apply take_two_append_right _ _ _ hs.first2
      simp only [List.length_map]
      omega
    · intro _
      dsimp only
      omega
    · intro x hx
      rcases List.mem_append.mp hx with hx | hx
      · exact hs.arrived x hx
      · simp only [List.mem_singleton] at hx
        subst hx
        exact le_refl _
    · exact agrees_append cfg _ _ now r w.pc hs.agrees

/-- The goroutine of a live process has not called `os.Exit`. -/
theorem Sound.live {cfg : Config} {h : Handler} {w : Watcher} {now : Int}
    {r : Run} (hs : Sound cfg h w now none r) : w.pc ≠ PC.exited := by
  intro hpc
  have := hs.exited
  simp [hpc] at this

theorem agrees_now (cfg : Config) (D : List (Int × Signal)) (now now2 : Int) (r : Run)
    (pc : PC) (hpc : pc ≠ PC.exited) (h : r.Agrees cfg D now pc) :
    r.Agrees cfg D now2 pc := by
  cases pc with
  | exited => exact absurd rfl hpc
  | _ => exact h

/-- A clock tick keeps the invariant of a live process. -/
theorem Sound.tick {cfg : Config} {h : Handler} {w : Watcher} {now : Int}
    {r : Run} (hs : Sound cfg h w now none r) : Sound cfg h w (now + 1) none r := by
  refine { hs with arrived := ?_, sorted := ?_, agrees := ?_ }
  · intro x hx
    have := hs.arrived x hx
    omega
  · have hso := hs.sorted
    rw [List.pairwise_append] at hso ⊢
    refine ⟨hso.1, List.pairwise_singleton _ _, ?_⟩
    intro x hx y hy
    simp only [List.mem_singleton] at hy
    have := hso.2.2 x hx now (List.mem_singleton.mpr rfl)
    omega
  · exact agrees_now cfg _ now (now + 1) r w.pc hs.live hs.agrees

theorem received_append_recv (T : List (Int × Event)) (t : Int) (sig : Signal) :
    received (T ++ [(t, Event.recv sig)]) = received T ++ [sig] := by
  simp [received, List.filterMap_append]

theorem received_append_other (T : List (Int × Event)) (t : Int) (ev : Event)
    (hev : ∀ sig, ev ≠ Event.recv sig) :
    received (T ++ [(t, ev)]) = received T := by
  cases ev with
  | recv sig => exact absurd rfl (hev sig)
  | _ => simp [received, List.filterMap_append]

theorem sorted_goto (l : List Int) (now : Int)
    (h : List.Pairwise (fun x y : Int => x ≤ y) (l ++ [now])) :
    List.Pairwise (fun x y : Int => x ≤ y) ((l ++ [now]) ++ [now]) := by
  rw [List.pairwise_append]
  refine ⟨h, List.pairwise_singleton _ _, ?_⟩
  intro x hx y hy
  simp only [List.mem_singleton] at hy
  subst hy
  rcases List.mem_append.mp hx with hx | hx
  · exact (List.pairwise_append.mp h).2.2 x hx y (List.mem_singleton.mpr rfl)
  · simp only [List.mem_singleton] at hx
    omega

/-- The goroutine performs an event other than a receive. -/
theorem Sound.goto_other {cfg : Config} {h : Handler} {w : Watcher} {now : Int}
    {r : Run} (hs : Sound cfg h w now none r) (ev : Event) (pc : PC) (ctx : Token)
    (ex : Option Int) (r2 : Run)
    (hev : ∀ sig, ev ≠ Event.recv sig)
    (htrace : w.trace ++ [(now, ev)] = (r2.events cfg).take pc.rank)
    (hctx : ctx = if 3 ≤ pc.rank then { cancelled := true, cancelCalls := 1 }
                  else { cancelled := false, cancelCalls := 0 })
    (hex : ex = if pc = PC.exited then some 1 else none)
    (hag : r2.Agrees cfg h.delivered now pc) :
    Sound cfg { h with ctx := ctx, goroutine := some (w.goto now pc ev) }
      (w.goto now pc ev) now ex r2 :=
  { gor := rfl
    cfg_eq := hs.cfg_eq
    cap := hs.cap
    reg := hs.reg
    len := by
      simp only [Watcher.goto, received_append_other _ _ _ hev]
      exact hs.len
    first2 := by
      simp only [Watcher.goto, received_append_other _ _ _ hev]
      exact hs.first2
    drop := by
      simp only [Watcher.goto, received_append_other _ _ _ hev]
      exact hs.drop
    full := hs.full
    arrived := hs.arrived
    sorted := by
      simp only [Watcher.goto, List.map_append, List.map_cons, List.map_nil]
      exact sorted_goto _ _ hs.sorted
    trace := htrace
    ctx := hctx
    exited := hex
    agrees := hag }

/-- The goroutine receives the signal at the head of the channel. -/
theorem Sound.goto_recv {cfg : Config} {h : Handler} {w : Watcher} {now : Int}
    {r : Run} (hs : Sound cfg h w now none r) (sig : Signal) (rest : List Signal)
    (pc : PC) (r2 : Run)
    (hbuf : h.c.buf = sig :: rest)
    (htrace : w.trace ++ [(now, Event.recv sig)] = (r2.events cfg).take pc.rank)
    (hctx : h.ctx = if 3 ≤ pc.rank then { cancelled := true, cancelCalls := 1 }
                  else { cancelled := false, cancelCalls := 0 })
    (hpc : pc ≠ PC.exited)
    (hag : r2.Agrees cfg h.delivered now pc) :
    Sound cfg { h with c := { h.c with buf := rest },
                       goroutine := some (w.goto now pc (Event.recv sig)) }
      (w.goto now pc (Event.recv sig)) now none r2 :=
  { gor := rfl
    cfg_eq := hs.cfg_eq
    cap := hs.cap
    reg := hs.reg
    len := by
      have := hs.len
      simp only [Watcher.goto, received_append_recv, List.length_append, List.length_singleton]
      rw [hbuf] at this
      simp only [List.length_cons] at this
      omega
    first2 := by
      have := hs.first2
      rw [hbuf] at this
      simpa [Watcher.goto, received_append_recv] using this
    drop := by
      have := hs.drop
      rw [hbuf] at this
      simp only [Watcher.goto, received_append_recv, List.length_append, List.length_singleton]
      simp only [List.length_cons] at this
      intro hd
      have := this hd
      omega
    full := by
      have := hs.full
      rw [hbuf] at this
      simp only [List.length_cons] at this
      show rest.length ≤ 2
      omega
    arrived := hs.arrived
    sorted := by
      simp only [Watcher.goto, List.map_append, List.map_cons, List.map_nil]
      exact sorted_goto _ _ hs.sorted
    trace := htrace
    ctx := hctx
    exited := by simp [Watcher.goto, hpc]
    agrees := hag }

theorem first_of_take (D : List (Int × Signal)) (sig : Signal) (rest : List Signal)
    (h : (sig :: rest).take 2 = (D.map Prod.snd).take 2) :
    ∃ t0 D2, D = (t0, sig) :: D2 := by
  cases D with
  | nil => simp at h
  | cons x D2 =>
    obtain ⟨t0, s0⟩ := x
    simp only [List.map_cons, List.take_succ_cons, List.cons.injEq] at h
    exact ⟨t0, D2, by rw [h.1]⟩

theorem second_of_take (D : List (Int × Signal)) (s sig : Signal)
    (h : [s, sig] = (D.map Prod.snd).take 2) :
    ∃ x t2 D2, D = x :: (t2, sig) :: D2 := by
  cases D with
  | nil => simp at h
  | cons x D2 =>
    cases D2 with
    | nil => simp at h
    | cons y D3 =>
      obtain ⟨t2, s2⟩ := y
      simp only [List.map_cons, List.take_succ_cons, List.cons.injEq] at h
      exact ⟨x, t2, D3, by rw [h.2.1]⟩

/-- One statement of the goroutine keeps the invariant. -/
theorem Sound.step {cfg : Config} {h : Handler} {w : Watcher} {now : Int}
    {r : Run} (hs : Sound cfg h w now none r) (b : Bool) :
    ∃ w2 r2, Sound cfg (h.step now b).1 w2 now (h.step now b).2 r2 := by
  have hgor := hs.gor
  have htr := hs.trace
  have hag := hs.agrees
  have hctx := hs.ctx
  have hcfg := hs.cfg_eq
  cases hpc : w.pc with
  | recvFirst =>
    rw [hpc] at htr hag hctx
    cases hbuf : h.c.buf with
    | nil =>
      refine ⟨w, r, ?_⟩
      simp only [Handler.step, hgor, hpc, hbuf]
      exact hs
    | cons sig rest =>
      simp only [Handler.step, hgor, hpc, hbuf]
      refine ⟨_, { r with s := sig, a := now }, hs.goto_recv sig rest (PC.logFirst sig) _ hbuf ?_ ?_ ?_ ?_⟩
      · simp [htr, PC.rank, Run.events]
      · simpa [PC.rank] using hctx
      · simp
      · have h2 := hs.first2
        rw [htr, hbuf] at h2
        simp only [PC.rank, List.take_zero, received, List.filterMap_nil, List.nil_append] at h2
        obtain ⟨t0, D2, hD⟩ := first_of_take _ _ _ h2
        refine ⟨rfl, t0, D2, hD, ?_⟩
        exact hs.arrived (t0, sig) (by rw [hD]; exact List.mem_cons_self _ _)
  | logFirst sig =>
    rw [hpc] at htr hag hctx
    simp only [Handler.step, hgor, hpc]
    refine ⟨_, { r with b := now }, hs.goto_other _ PC.cancel h.ctx none _ ?_ ?_ ?_ ?_ ?_⟩
    · intro s; simp
    · simp [htr, PC.rank, Run.events, hag.1, hcfg]
    · simpa [PC.rank] using hctx
    · simp
    · exact hag.2
  | cancel =>
    rw [hpc] at htr hag hctx
    simp only [Handler.step, hgor, hpc]
    refine ⟨_, { r with c := now }, hs.goto_other _ PC.branch h.ctx.cancel none _ ?_ ?_ ?_ ?_ ?_⟩
    · intro s; simp
    · simp [htr, PC.rank, Run.events]
    · simp only [PC.rank] at hctx
      simp [hctx, PC.rank, Token.cancel]
    · simp
    · exact hag
  | branch =>
    rw [hpc] at htr hag hctx
    by_cases hG : w.cfg.TermDelay ≠ 0
    · simp only [Handler.step, hgor, hpc]
      rw [if_pos hG]
      refine ⟨_, { r with d := now },
        hs.goto_other _ (PC.selectWait (now + w.cfg.TermDelay)) h.ctx none _ ?_ ?_ ?_ ?_ ?_⟩
      · intro s; simp
      · rw [hcfg] at hG
        simp [htr, PC.rank, Run.events, timerOf, hG, hcfg]
      · simpa [PC.rank] using hctx
      · simp
      · rw [hcfg] at hG ⊢
        exact ⟨hag, hG, rfl⟩
    · simp only [Handler.step, hgor, hpc]
      rw [if_neg hG]
      refine ⟨_, { r with d := now },
        hs.goto_other _ PC.recvSecond h.ctx none _ ?_ ?_ ?_ ?_ ?_⟩
      · intro s; simp
      · rw [hcfg] at hG
        simp [htr, PC.rank, Run.events, timerOf, hG]
      · simpa [PC.rank] using hctx
      · simp
      · rw [hcfg] at hG
        exact ⟨hag, by simpa using hG⟩
  | selectWait timer =>
    rw [hpc] at htr hag hctx
    have hfire : timer ≤ now → ∃ w2 r2, Sound cfg
        { h with goroutine := some (w.goto now PC.logTimer Event.timerFired) }
        w2 now none r2 := by
      intro hle
      refine ⟨_, { r with e := now, second := none },
        hs.goto_other _ PC.logTimer h.ctx none _ ?_ ?_ ?_ ?_ ?_⟩
      · intro s; simp
      · simp [htr, PC.rank, Run.events, Run.wake]
      · simpa [PC.rank] using hctx
      · simp
      · refine ⟨hag.1, rfl, ?_⟩
        have := hag.2.2
        simp only [Run.Woken]
        exact ⟨hag.2.1, by omega⟩
    cases hbuf : h.c.buf with
    | nil =>
      simp only [Handler.step, hgor, hpc, hbuf]
      by_cases hle : timer ≤ now
      · rw [if_pos hle]
        exact hfire hle
      · rw [if_neg hle]
        exact ⟨w, r, hs⟩
    | cons sig rest =>
      simp only [Handler.step, hgor, hpc, hbuf]
      by_cases hle : timer ≤ now ∧ b = true
      · rw [if_pos hle]
        exact hfire hle.1
      · rw [if_neg hle]
        refine ⟨_, { r with e := now, second := some sig },
          hs.goto_recv sig rest (PC.logSignal sig) _ hbuf ?_ ?_ ?_ ?_⟩
        · simp [htr, PC.rank, Run.events, Run.wake]
        · simpa [PC.rank] using hctx
        · simp
        · have h2 := hs.first2
          rw [htr, hbuf] at h2
          simp only [PC.rank, Run.events, received, List.take_succ_cons, List.take_zero,
            List.filterMap_cons, List.filterMap_nil, List.cons_append, List.nil_append] at h2
          obtain ⟨x, t2, D2, hD⟩ := second_of_take _ _ _ h2
          refine ⟨hag.1, rfl, ?_⟩
          simp only [Run.Woken]
          exact ⟨x, t2, D2, hD, hs.arrived (t2, sig) (by rw [hD]; simp)⟩
  | recvSecond =>
    rw [hpc] at htr hag hctx
    cases hbuf : h.c.buf with
    | nil =>
      simp only [Handler.step, hgor, hpc, hbuf]
      exact ⟨w, r, hs⟩
    | cons sig rest =>
      simp only [Handler.step, hgor, hpc, hbuf]
      refine ⟨_, { r with e := now, second := some sig },
        hs.goto_recv sig rest (PC.logSignal sig) _ hbuf ?_ ?_ ?_ ?_⟩
      · simp [htr, PC.rank, Run.events, Run.wake]
      · simpa [PC.rank] using hctx
      · simp
      · have h2 := hs.first2
        rw [htr, hbuf] at h2
        simp only [PC.rank, Run.events, received, List.take_succ_cons, List.take_zero,
          List.filterMap_cons, List.filterMap_nil, List.cons_append, List.nil_append] at h2
        obtain ⟨x, t2, D2, hD⟩ := second_of_take _ _ _ h2
        refine ⟨hag.1, rfl, ?_⟩
        simp only [Run.Woken]
        exact ⟨x, t2, D2, hD, hs.arrived (t2, sig) (by rw [hD]; simp)⟩
  | logTimer =>
    rw [hpc] at htr hag hctx
    simp only [Handler.step, hgor, hpc]
    refine ⟨_, { r with f := now }, hs.goto_other _ PC.exit h.ctx none _ ?_ ?_ ?_ ?_ ?_⟩
    · intro s; simp
    · simp [htr, PC.rank, Run.events, Run.wake, Run.farewell, hag.2.1, hcfg]
    · simpa [PC.rank] using hctx
    · simp
    · exact ⟨hag.1, hag.2.2⟩
  | logSignal sig =>
    rw [hpc] at htr hag hctx
    simp only [Handler.step, hgor, hpc]
    refine ⟨_, { r with f := now }, hs.goto_other _ PC.exit h.ctx none _ ?_ ?_ ?_ ?_ ?_⟩
    · intro s; simp
    · simp [htr, PC.rank, Run.events, Run.wake, Run.farewell, hag.2.1]
    · simpa [PC.rank] using hctx
    · simp
    · exact ⟨hag.1, hag.2.2⟩
  | exit =>
    rw [hpc] at htr hag hctx
    simp only [Handler.step, hgor, hpc]
    refine ⟨_, { r with g := now },
      hs.goto_other _ PC.exited h.ctx (some 1) _ ?_ ?_ ?_ ?_ ?_⟩
    · intro s; simp
    · simp [htr, PC.rank, Run.events, Run.wake, Run.farewell]
    · simpa [PC.rank] using hctx
    · simp
    · exact ⟨hag.1, hag.2, rfl⟩
  | exited => exact absurd hpc hs.live

/-- A successful call in an idle process establishes the invariant. -/
theorem Process.Sound.init (ML : String → String → Except Error Logger) (cfg : Config)
    (logger : Logger) (p : Process) (hm : p.mutex = false) (hh : p.handlers = [])
    (hx : p.exited = none) (hlog : ML cfg.LogLevel cfg.LogFormat = Except.ok logger) :
    Process.Sound cfg (SetupSignalHandler ML cfg p).2 := by
  rw [setup_ok_eq ML cfg logger p hm hlog]
  refine ⟨rfl,
    { ctx := { cancelled := false, cancelCalls := 0 }, c := { cap := 2, buf := [] },
      registered := [Signal.Interrupt, Signal.SIGTERM], delivered := [], dropped := 0,
      goroutine := some { cfg := cfg, logger := logger, pc := PC.recvFirst, trace := [] } },
    { cfg := cfg, logger := logger, pc := PC.recvFirst, trace := [] },
    { s := Signal.Interrupt, a := 0, b := 0, c := 0, d := 0, e := 0, f := 0, g := 0,
      second := none }, by simp [hh], ?_⟩
  constructor <;> simp [received, shutdownSignals, PC.rank, hx, Run.Agrees]

/-- Every action keeps the invariant. -/
theorem Process.Sound.after_action (ML : String → String → Except Error Logger) (cfg : Config)
    (p : Process) (a : Action) (hp : Process.Sound cfg p) :
    Process.Sound cfg (Process.step ML p a) := by
  obtain ⟨hm, h, w, r, hh, hs⟩ := hp
  cases hx : p.exited with
  | some code => rw [step_exited ML p a code hx]; exact ⟨hm, h, w, r, hh, hs⟩
  | none =>
    rw [hx] at hs
    cases a with
    | call c2 =>
      rw [step_call ML p c2 hx, setup_locked ML c2 p hm]
      exact ⟨hm, h, w, r, hh, by rw [hx]; exact hs⟩
    | deliver sig =>
      rw [step_deliver ML p sig hx]
      exact ⟨hm, h.deliver p.now sig, w, r, by simp [hh], by simp only [hx]; exact hs.deliver sig⟩
    | tick =>
      rw [step_tick ML p hx]
      exact ⟨hm, h, w, r, hh, by simp only [hx]; exact hs.tick⟩
    | run i b =>
      cases i with
      | zero =>
        obtain ⟨w2, r2, hs2⟩ := hs.step b
        refine ⟨?_, (h.step p.now b).1, w2, r2, ?_, ?_⟩
        · simp [Process.step, hx, hh, hm]
        · simp [Process.step, hx, hh]
        · simpa [Process.step, hx, hh] using hs2
      | succ n =>
        have : Process.step ML p (Action.run (n + 1) b) = p := by
          simp [Process.step, hx, hh]
        rw [this]
        exact ⟨hm, h, w, r, hh, by rw [hx]; exact hs⟩

theorem Process.Sound.exec (ML : String → String → Except Error Logger) (cfg : Config)
    (sched : List Action) (p : Process) (hp : Process.Sound cfg p) :
    Process.Sound cfg (exec ML sched p) := by
  induction sched generalizing p with
  | nil => exact hp
  | cons a rest ih => exact ih _ (Process.Sound.after_action ML cfg p a hp)

/-- The invariant holds at every moment after the first successful call. -/
theorem sound_after_setup (ML : String → String → Except Error Logger) (cfg : Config)
    (logger : Logger) (pre sched : List Action)
    (hm : (exec ML pre Process.boot).mutex = false)
    (hlog : ML cfg.LogLevel cfg.LogFormat = Except.ok logger) :
    Process.Sound cfg (exec ML sched (SetupSignalHandler ML cfg (exec ML pre Process.boot)).2) :=
  Process.Sound.exec ML cfg sched _
    (Process.Sound.init ML cfg logger _ hm (boot_unlocked_handlers ML pre hm)
      (boot_unlocked_live ML pre hm) hlog)

/-- One statement never takes the goroutine backwards, takes it forward by one
event when it is enabled, and does not touch the record of deliveries. -/
theorem step_rank (h : Handler) (now : Int) (b : Bool) :
    h.rank ≤ (h.step now b).1.rank
      ∧ (h.enabled now → (h.step now b).1.rank = h.rank + 1)
      ∧ (h.step now b).1.delivered = h.delivered := by
  cases hg : h.goroutine with
  | none => simp [Handler.step, hg, Handler.enabled, Handler.rank]
  | some w =>
  cases hpc : w.pc with
  | recvFirst =>
    cases hbuf : h.c.buf <;>
      simp [Handler.step, hg, hpc, hbuf, Handler.enabled, Handler.rank, Watcher.goto, PC.rank]
  | recvSecond =>
    cases hbuf : h.c.buf <;>
      simp [Handler.step, hg, hpc, hbuf, Handler.enabled, Handler.rank, Watcher.goto, PC.rank]
  | selectWait timer =>
    cases hbuf : h.c.buf with
    | nil =>
      by_cases hle : timer ≤ now <;>
        simp [Handler.step, hg, hpc, hbuf, hle, Handler.enabled, Handler.rank, Watcher.goto,
          PC.rank]
    | cons sig rest =>
      simp only [Handler.step, hg, hpc, hbuf]
      by_cases hle : timer ≤ now ∧ b = true
      · rw [if_pos hle]
        simp [Handler.rank, hg, hpc, Watcher.goto, PC.rank]
      · rw [if_neg hle]
        simp [Handler.rank, hg, hpc, Watcher.goto, PC.rank]
  | branch =>
    simp only [Handler.step, hg, hpc]
    by_cases hG : w.cfg.TermDelay ≠ 0
    · rw [if_pos hG]
      simp [Handler.rank, hg, hpc, Watcher.goto, PC.rank]
    · rw [if_neg hG]
      simp [Handler.rank, hg, hpc, Watcher.goto, PC.rank]
  | exited => simp [Handler.step, hg, hpc, Handler.enabled, Handler.rank]
  | _ => simp [Handler.step, hg, hpc, Handler.rank, Watcher.goto, PC.rank]

theorem deliver_rank (h : Handler) (now : Int) (sig : Signal) :
    (h.deliver now sig).rank = h.rank := by
  unfold Handler.deliver
  split <;> rfl

/-- Of the signals delivered, the first two at least were accepted. -/
theorem Sound.accepted {cfg : Config} {h : Handler} {w : Watcher} {now : Int}
    {exited : Option Int} {r : Run} (hs : Sound cfg h w now exited r) :
    min 2 ((received w.trace).length + h.c.buf.length) = min 2 h.delivered.length := by
  have := congrArg List.length hs.first2
  simpa [List.length_take] using this

theorem Sound.rank_eq {cfg : Config} {h : Handler} {w : Watcher} {now : Int}
    {exited : Option Int} {r : Run} (hs : Sound cfg h w now exited r) :
    h.rank = w.pc.rank := by
  simp [Handler.rank, hs.gor]

/-- What the goroutine has received is determined by how far it has got. -/
theorem Sound.received_length {cfg : Config} {h : Handler} {w : Watcher} {now : Int}
    {exited : Option Int} {r : Run} (hs : Sound cfg h w now exited r) :
    (received w.trace).length ≤ 2
      ∧ (w.pc.rank = 0 → (received w.trace).length = 0)
      ∧ (1 ≤ w.pc.rank → w.pc.rank ≤ 4 → (received w.trace).length = 1) := by
  have htr := hs.trace
  rw [htr]
  cases hpc : w.pc <;> cases hsec : r.second <;>
    simp [PC.rank, Run.events, received, Run.wake, hsec]

/-- With two signals delivered the goroutine is never blocked. -/
theorem Sound.enabled_two {cfg : Config} {h : Handler} {w : Watcher} {now : Int}
    {r : Run} (hs : Sound cfg h w now none r) (hd : 2 ≤ h.delivered.length) :
    h.enabled now := by
  have hacc := hs.accepted
  have hrl := hs.received_length
  have hlive := hs.live
  unfold Handler.enabled
  rw [hs.gor]
  cases hpc : w.pc with
  | recvFirst =>
    simp only [hpc]
    have := hrl.2.1 (by simp [hpc, PC.rank])
    intro hb
    simp [hb] at hacc
    omega
  | recvSecond =>
    simp only [hpc]
    have := hrl.2.2 (by simp [hpc, PC.rank]) (by simp [hpc, PC.rank])
    intro hb
    simp [hb] at hacc
    omega
  | selectWait timer =>
    simp only [hpc]
    have := hrl.2.2 (by simp [hpc, PC.rank]) (by simp [hpc, PC.rank])
    left
    intro hb
    simp [hb] at hacc
    omega
  | exited => exact absurd hpc hlive
  | _ => simp [hpc]

/-- With one signal delivered the goroutine is not blocked before it has
entered the grace-period wait. -/
theorem Sound.enabled_one {cfg : Config} {h : Handler} {w : Watcher} {now : Int}
    {r : Run} (hs : Sound cfg h w now none r) (hd : 1 ≤ h.delivered.length)
    (hr : w.pc.rank < 4) : h.enabled now := by
  have hacc := hs.accepted
  have hrl := hs.received_length
  unfold Handler.enabled
  rw [hs.gor]
  cases hpc : w.pc with
  | recvFirst =>
    simp only [hpc]
    have := hrl.2.1 (by simp [hpc, PC.rank])
    intro hb
    simp [hb] at hacc
    omega
  | logFirst sig => simp [hpc]
  | cancel => simp [hpc]
  | branch => simp [hpc]
  | _ => simp [hpc, PC.rank] at hr

theorem rank_seven (pc : PC) : pc.rank = 7 ↔ pc = PC.exited := by
  cases pc <;> simp [PC.rank]

theorem rank_le_seven (pc : PC) : pc.rank ≤ 7 := by
  cases pc <;> simp [PC.rank]

/-- The process has exited exactly when its goroutine has performed all seven
events, and then with status 1. -/
theorem Process.Sound.exited_iff {cfg : Config} {p : Process} (hp : Process.Sound cfg p) :
    (p.rank = 7 → p.exited = some 1) ∧ (p.rank ≠ 7 → p.exited = none) ∧ p.rank ≤ 7 := by
  obtain ⟨_, h, w, r, hh, hs⟩ := hp
  have hr : p.rank = w.pc.rank := by simp [Process.rank, hh, hs.rank_eq]
  have hx := hs.exited
  rw [hr]
  refine ⟨?_, ?_, rank_le_seven _⟩
  · intro h7
    rw [hx, if_pos ((rank_seven _).mp h7)]
  · intro h7
    rw [hx, if_neg (fun hc => h7 ((rank_seven _).mpr hc))]

/-- The context is cancelled, by one invocation of its cancel function, exactly
when the goroutine has performed its third event. -/
theorem Process.Sound.cancelled_iff {cfg : Config} {p : Process} {h : Handler}
    (hp : Process.Sound cfg p) (hh : p.handlers = [h]) :
    (3 ≤ p.rank → h.ctx = { cancelled := true, cancelCalls := 1 })
      ∧ (p.rank < 3 → h.ctx = { cancelled := false, cancelCalls := 0 }) := by
  obtain ⟨_, h2, w, r, hh2, hs⟩ := hp
  rw [hh] at hh2
  cases hh2
  have hr : p.rank = w.pc.rank := by simp [Process.rank, hh, hs.rank_eq]
  have hc := hs.ctx
  rw [hr]
  constructor
  · intro h3
    rw [hc, if_pos h3]
  · intro h3
    rw [hc, if_neg (by omega)]

/-- A statement of the goroutine, seen from the process. -/
theorem run_advance (ML : String → String → Except Error Logger) (cfg : Config)
    (p : Process) (b : Bool) (hp : Process.Sound cfg p) (hx : p.exited = none) :
    p.rank ≤ (Process.step ML p (Action.run 0 b)).rank
      ∧ (Process.step ML p (Action.run 0 b)).delivered = p.delivered
      ∧ (Process.step ML p (Action.run 0 b)).now = p.now
      ∧ ((∀ h, p.handlers = [h] → h.enabled p.now) →
          (Process.step ML p (Action.run 0 b)).rank = p.rank + 1) := by
  obtain ⟨_, h, w, r, hh, hs⟩ := hp
  have hsr := step_rank h p.now b
  have e : Process.step ML p (Action.run 0 b) =
      { p with handlers := [(h.step p.now b).1], exited := (h.step p.now b).2 } := by
    simp [Process.step, hx, hh]
  rw [e]
  simp only [Process.rank, Process.delivered, hh]
  exact ⟨hsr.1, hsr.2.2, trivial, fun hen => hsr.2.1 (hen h rfl)⟩

/-- No action takes the goroutine backwards. -/
theorem step_rank_mono (ML : String → String → Except Error Logger) (cfg : Config)
    (p : Process) (a : Action) (hp : Process.Sound cfg p) :
    p.rank ≤ (Process.step ML p a).rank := by
  cases hx : p.exited with
  | some code => rw [step_exited ML p a code hx]
  | none =>
    obtain ⟨hm, h, w, r, hh, hs⟩ := hp
    cases a with
    | call c2 => rw [step_call ML p c2 hx, setup_locked ML c2 p hm]
    | deliver sig =>
      rw [step_deliver ML p sig hx]
      simp [Process.rank, hh, deliver_rank]
    | tick => rw [step_tick ML p hx]; simp [Process.rank]
    | run i b =>
      cases i with
      | zero => exact (run_advance ML cfg p b ⟨hm, h, w, r, hh, hs⟩ hx).1
      | succ n =>
        have : Process.step ML p (Action.run (n + 1) b) = p := by
          simp [Process.step, hx, hh]
        rw [this]

theorem exec_rank_mono (ML : String → String → Except Error Logger) (cfg : Config)
    (sched : List Action) (p : Process) (hp : Process.Sound cfg p) :
    p.rank ≤ (exec ML sched p).rank := by
  induction sched generalizing p with
  | nil => exact le_refl _
  | cons a rest ih =>
    exact le_trans (step_rank_mono ML cfg p a hp) (ih _ (Process.Sound.after_action ML cfg p a hp))

theorem exec_exited (ML : String → String → Except Error Logger) (sched : List Action)
    (p : Process) (code : Int) (hx : p.exited = some code) : exec ML sched p = p := by
  induction sched with
  | nil => rfl
  | cons a rest ih => rw [exec_cons, step_exited ML p a code hx, ih]

/-- With two signals delivered, seven statements of the goroutine (fewer if it
has already performed some) end in `os.Exit(1)`, with no time passing and no
further delivery. -/
theorem runs_reach_exit (ML : String → String → Except Error Logger) (cfg : Config)
    (bs : List Bool) (p : Process) (hp : Process.Sound cfg p)
    (hd : 2 ≤ p.delivered.length) (hlen : 7 ≤ p.rank + bs.length) :
    (exec ML (runs bs) p).exited = some 1
      ∧ (exec ML (runs bs) p).now = p.now
      ∧ (exec ML (runs bs) p).delivered = p.delivered := by
  induction bs generalizing p with
  | nil =>
    have h7 : p.rank = 7 := by
      have := hp.exited_iff.2.2
      simp only [List.length_nil] at hlen
      omega
    exact ⟨hp.exited_iff.1 h7, rfl, rfl⟩
  | cons b rest ih =>
    by_cases h7 : p.rank = 7
    · have hx := hp.exited_iff.1 h7
      rw [exec_exited ML _ p 1 hx]
      exact ⟨hx, rfl, rfl⟩
    · have hx := hp.exited_iff.2.1 h7
      have hadv := run_advance ML cfg p b hp hx
      have hen : ∀ h, p.handlers = [h] → h.enabled p.now := by
        intro h hh
        obtain ⟨_, h2, w, r, hh2, hs⟩ := hp
        rw [hh] at hh2
        cases hh2
        rw [hx] at hs
        apply hs.enabled_two
        simpa [Process.delivered, hh] using hd
      have hr := hadv.2.2.2 hen
      simp only [runs, List.map_cons, exec_cons]
      have := ih (Process.step ML p (Action.run 0 b)) (Process.Sound.after_action ML cfg p _ hp)
        (by rw [hadv.2.1]; exact hd)
        (by rw [hr]; simp only [List.length_cons] at hlen; omega)
      simp only [runs] at this
      rw [hadv.2.1, hadv.2.2.1] at this
      exact this

/-- With one signal delivered, the goroutine gets as far as the grace-period
wait by its own statements: `k` of them (fewer if it has already performed
some) bring it to its `k`-th event, for `k` up to 4, with no time passing. -/
theorem runs_reach_wait (ML : String → String → Except Error Logger) (cfg : Config)
    (k : Nat) (bs : List Bool) (p : Process) (hp : Process.Sound cfg p) (hk : k ≤ 4)
    (hd : 1 ≤ p.delivered.length) (hlen : k ≤ p.rank + bs.length) :
    k ≤ (exec ML (runs bs) p).rank
      ∧ (exec ML (runs bs) p).now = p.now
      ∧ (exec ML (runs bs) p).delivered = p.delivered := by
  induction bs generalizing p with
  | nil =>
    simp only [List.length_nil] at hlen
    exact ⟨by simpa [runs] using hlen, rfl, rfl⟩
  | cons b rest ih =>
    simp only [runs, List.map_cons, exec_cons]
    cases hx : p.exited with
    | some code =>
      rw [step_exited ML p _ code hx, exec_exited ML _ p code hx]
      have : p.rank = 7 := by
        by_contra h7
        have := hp.exited_iff.2.1 h7
        rw [hx] at this
        cases this
      exact ⟨by omega, rfl, rfl⟩
    | none =>
      have hadv := run_advance ML cfg p b hp hx
      by_cases h3 : k ≤ p.rank
      · have hmono := exec_rank_mono ML cfg (rest.map (Action.run 0)) _
          (Process.Sound.after_action ML cfg p (Action.run 0 b) hp)
        have hnow := (ih (Process.step ML p (Action.run 0 b))
          (Process.Sound.after_action ML cfg p _ hp) (by rw [hadv.2.1]; exact hd)
          (by have := hadv.1; omega)).2
        simp only [runs] at hnow
        exact ⟨by have := hadv.1; omega, by rw [hnow.1, hadv.2.2.1],
          by rw [hnow.2, hadv.2.1]⟩
      · have hen : ∀ h, p.handlers = [h] → h.enabled p.now := by
          intro h hh
          obtain ⟨_, h2, w, r, hh2, hs⟩ := hp
          rw [hh] at hh2
          cases hh2
          rw [hx] at hs
          apply hs.enabled_one
          · simpa [Process.delivered, hh] using hd
          · have : p.rank = w.pc.rank := by simp [Process.rank, hh, hs.rank_eq]
            omega
        have hr := hadv.2.2.2 hen
        have := ih (Process.step ML p (Action.run 0 b)) (Process.Sound.after_action ML cfg p _ hp)
          (by rw [hadv.2.1]; exact hd)
          (by rw [hr]; simp only [List.length_cons] at hlen; omega)
        simp only [runs] at this
        rw [hadv.2.2.1, hadv.2.1] at this
        exact this

/-! ## The goroutine: claims C1, C3, C4 and C9 -/

theorem after_sound (ML : String → String → Except Error Logger) (cfg : Config)
    (logger : Logger) (pre sched : List Action)
    (hm : (exec ML pre Process.boot).mutex = false)
    (hlog : ML cfg.LogLevel cfg.LogFormat = Except.ok logger) :
    Process.Sound cfg (Process.after ML cfg pre sched) :=
  sound_after_setup ML cfg logger pre sched hm hlog

theorem after_append (ML : String → String → Except Error Logger) (cfg : Config)
    (pre s1 s2 : List Action) :
    Process.after ML cfg pre (s1 ++ s2) = exec ML s2 (Process.after ML cfg pre s1) := by
  simp [Process.after, exec_append]

/-- The cancel function has been invoked once if the goroutine has performed
its third event, and not at all otherwise. -/
theorem Sound.cancel_count {cfg : Config} {h : Handler} {w : Watcher} {now : Int}
    {exited : Option Int} {r : Run} (hs : Sound cfg h w now exited r) :
    (w.trace.map Prod.snd).count Event.cancel = h.ctx.cancelCalls := by
  rw [hs.trace, hs.ctx]
  cases hpc : w.pc <;> cases hsec : r.second <;>
    simp [PC.rank, Run.events, Run.wake, hsec, List.count_cons]

/-- Once the goroutine has performed an event, a signal has been delivered:
the one it received first, no later than it received it. -/
theorem Sound.first_arrival {cfg : Config} {h : Handler} {w : Watcher} {now : Int}
    {exited : Option Int} {r : Run} (hs : Sound cfg h w now exited r)
    (hr : 1 ≤ w.pc.rank) : FirstArrival h.delivered r.s r.a := by
  have hag := hs.agrees
  cases hpc : w.pc with
  | recvFirst => simp [hpc, PC.rank] at hr
  | logFirst sig => rw [hpc] at hag; exact hag.2
  | cancel => rw [hpc] at hag; exact hag
  | branch => rw [hpc] at hag; exact hag
  | _ => rw [hpc] at hag; exact hag.1

/-- Once the goroutine has left the wait, it was woken by the timer or by the
second signal. -/
theorem Sound.woken {cfg : Config} {h : Handler} {w : Watcher} {now : Int}
    {exited : Option Int} {r : Run} (hs : Sound cfg h w now exited r)
    (hr : 5 ≤ w.pc.rank) : r.Woken cfg h.delivered := by
  have hag := hs.agrees
  cases hpc : w.pc with
  | logTimer => rw [hpc] at hag; exact hag.2.2
  | logSignal sig => rw [hpc] at hag; exact hag.2.2
  | exit => rw [hpc] at hag; exact hag.2
  | exited => rw [hpc] at hag; exact hag.2.1
  | _ => simp [hpc, PC.rank] at hr

/-- The handler of a sound process, after any further actions. -/
theorem Process.Sound.handler {cfg : Config} {p : Process} (hp : Process.Sound cfg p) :
    ∃ h, p.handlers = [h] := by
  obtain ⟨_, h, _, _, hh, _⟩ := hp
  exact ⟨h, hh⟩

/-- C1: after a successful call, at every moment of every run (any grace
period, any deliveries, any interleaving): the events of the goroutine so far
are an initial part of the sequence "receive the first signal delivered, log
it, cancel, enter the wait, leave the wait, log, exit", so the cancel function
is invoked right after the first signal is received and before the wait and
the exit; it has been invoked at most once, and exactly once from the third
event on; the context is cancelled exactly then; it is not cancelled while no
signal has been delivered; it is cancelled if the process has exited; once
cancelled it stays cancelled whatever happens next; and once a signal has been
delivered three statements of the goroutine suffice to cancel it, with no time
passing. -/
theorem watcher_cancels_once (ML : String → String → Except Error Logger) (cfg : Config)
    (logger : Logger) (pre sched : List Action)
    (hm : (exec ML pre Process.boot).mutex = false)
    (hlog : ML cfg.LogLevel cfg.LogFormat = Except.ok logger) :
    ∃ (h : Handler) (w : Watcher) (r : Run),
      (Process.after ML cfg pre sched).handlers = [h] ∧ h.goroutine = some w
      ∧ w.trace = (r.events cfg).take w.pc.rank
      ∧ (w.trace.map Prod.snd).count Event.cancel = h.ctx.cancelCalls
      ∧ h.ctx.cancelCalls ≤ 1
      ∧ (h.ctx.cancelled = true ↔ h.ctx.cancelCalls = 1)
      ∧ (h.ctx.cancelled = true ↔ 3 ≤ w.pc.rank)
      ∧ (1 ≤ w.pc.rank → FirstArrival h.delivered r.s r.a)
      ∧ (h.delivered = [] → h.ctx.cancelled = false)
      ∧ ((Process.after ML cfg pre sched).exited ≠ none → h.ctx.cancelled = true)
      ∧ (h.ctx.cancelled = true → ∀ more, ∃ h2,
          (Process.after ML cfg pre (sched ++ more)).handlers = [h2]
          ∧ h2.ctx = { cancelled := true, cancelCalls := 1 })
      ∧ (h.delivered ≠ [] → ∀ bs, 3 ≤ bs.length → ∃ h3,
          (Process.after ML cfg pre (sched ++ runs bs)).handlers = [h3]
          ∧ h3.ctx = { cancelled := true, cancelCalls := 1 }
          ∧ (Process.after ML cfg pre (sched ++ runs bs)).now
              = (Process.after ML cfg pre sched).now) := by
  have hp := after_sound ML cfg logger pre sched hm hlog
  obtain ⟨hmx, h, w, r, hh, hs⟩ := hp
  have hp : Process.Sound cfg (Process.after ML cfg pre sched) := ⟨hmx, h, w, r, hh, hs⟩
  have hrank : (Process.after ML cfg pre sched).rank = w.pc.rank := by
    simp [Process.rank, hh, hs.rank_eq]
  have hctx := hs.ctx
  have hcanc : h.ctx.cancelled = true ↔ 3 ≤ w.pc.rank := by
    rw [hctx]
    by_cases h3 : 3 ≤ w.pc.rank <;> simp [h3]
  have hcalls : h.ctx.cancelled = true ↔ h.ctx.cancelCalls = 1 := by
    rw [hctx]
    by_cases h3 : 3 ≤ w.pc.rank <;> simp [h3]
  refine ⟨h, w, r, hh, hs.gor, hs.trace, hs.cancel_count, ?_, hcalls, hcanc,
    hs.first_arrival, ?_, ?_, ?_, ?_⟩
  · rw [hctx]
    by_cases h3 : 3 ≤ w.pc.rank <;> simp [h3]
  · intro hD
    by_cases h1 : 1 ≤ w.pc.rank
    · obtain ⟨t0, rest, hD2, _⟩ := hs.first_arrival h1
      rw [hD] at hD2
      cases hD2
    · rw [hctx, if_neg (by omega)]
  · intro hx
    have h7 : (Process.after ML cfg pre sched).rank = 7 := by
      by_contra h7
      exact hx (hp.exited_iff.2.1 h7)
    exact hcanc.mpr (by omega)
  · intro hc more
    have h3 := hcanc.mp hc
    rw [after_append]
    have hq := Process.Sound.exec ML cfg more _ hp
    have hmono := exec_rank_mono ML cfg more _ hp
    obtain ⟨h2, hh2⟩ := hq.handler
    exact ⟨h2, hh2, (hq.cancelled_iff hh2).1 (by omega)⟩
  · intro hD bs hbs
    rw [after_append]
    have hq := Process.Sound.exec ML cfg (runs bs) _ hp
    have hd : 1 ≤ (Process.after ML cfg pre sched).delivered.length := by
      simp only [Process.delivered, hh]
      cases hDl : h.delivered with
      | nil => exact absurd hDl hD
      | cons x rest => simp
    have hreach := runs_reach_wait ML cfg 3 bs _ hp (by omega) hd (by omega)
    obtain ⟨h3, hh3⟩ := hq.handler
    exact ⟨h3, hh3, (hq.cancelled_iff hh3).1 hreach.1, hreach.2.1⟩

theorem watcher_cancels_once_witness :
    (exec sampleMakeLogger [Action.tick] Process.boot).mutex = false
    ∧ sampleMakeLogger sampleConfig.LogLevel sampleConfig.LogFormat = Except.ok { id := 0 }
    ∧ ∃ h, (Process.after sampleMakeLogger sampleConfig [Action.tick]
              [Action.deliver Signal.SIGTERM, Action.run 0 true, Action.tick,
               Action.run 0 true, Action.run 0 false]).handlers = [h]
          ∧ h.ctx.cancelCalls ≤ 1 :=
  ⟨by decide, by decide, by
    obtain ⟨h, _, _, hh, _, _, _, hle, _⟩ :=
      watcher_cancels_once sampleMakeLogger sampleConfig { id := 0 } [Action.tick]
        [Action.deliver Signal.SIGTERM, Action.run 0 true, Action.tick,
         Action.run 0 true, Action.run 0 false] (by decide) (by decide)
    exact ⟨h, hh, hle⟩⟩

/-- The signals received so far, by how far the goroutine has got. -/
theorem Sound.received_eq {cfg : Config} {h : Handler} {w : Watcher} {now : Int}
    {exited : Option Int} {r : Run} (hs : Sound cfg h w now exited r) :
    (w.pc.rank = 0 → received w.trace = [])
      ∧ (1 ≤ w.pc.rank → w.pc.rank ≤ 4 → received w.trace = [r.s]) := by
  rw [hs.trace]
  cases hpc : w.pc <;> simp [PC.rank, Run.events, received]

/-- The times of the events of the goroutine are in order and not in the
future. -/
theorem Sound.ordered {cfg : Config} {h : Handler} {w : Watcher} {now : Int}
    {exited : Option Int} {r : Run} (hs : Sound cfg h w now exited r) :
    (4 ≤ w.pc.rank → r.a ≤ r.d ∧ r.d ≤ now)
      ∧ (5 ≤ w.pc.rank → r.d ≤ r.e ∧ r.e ≤ now)
      ∧ (7 ≤ w.pc.rank → r.e ≤ r.g) := by
  have hso := hs.sorted
  rw [hs.trace] at hso
  cases hpc : w.pc <;> rw [hpc] at hso <;>
    simp [PC.rank, Run.events, List.pairwise_cons] at hso ⊢ <;> omega

/-- With no grace period, the wait can only be ended by the second signal. -/
theorem Sound.second_of_zero {cfg : Config} {h : Handler} {w : Watcher} {now : Int}
    {exited : Option Int} {r : Run} (hs : Sound cfg h w now exited r)
    (hG : cfg.TermDelay = 0) (hr : 5 ≤ w.pc.rank) :
    ∃ s2, r.second = some s2 ∧ SecondArrival h.delivered s2 r.e := by
  have hw := hs.woken hr
  unfold Run.Woken at hw
  cases hsec : r.second with
  | none =>
    rw [hsec] at hw
    exact absurd hG hw.1
  | some s2 =>
    rw [hsec] at hw
    exact ⟨s2, rfl, hw⟩

theorem secondArrival_length (D : List (Int × Signal)) (s2 : Signal) (e : Int)
    (h : SecondArrival D s2 e) : 2 ≤ D.length := by
  obtain ⟨x, t2, rest, hD, _⟩ := h
  rw [hD]
  simp

/-- C3: with a grace period of zero, at every moment of every run after a
successful call: the wait the goroutine enters has no timer and no timer ever
fires; the process has either not exited or exited with status 1; if it has
exited, the goroutine was woken by receiving the second signal delivered, so
at least two signals were delivered; hence with fewer than two signals
delivered the process has not exited, however many clock ticks the run
contains; and once two signals have been delivered, seven statements of the
goroutine end in the exit with no time passing. -/
theorem watcher_zero_grace_needs_second (ML : String → String → Except Error Logger)
    (cfg : Config) (logger : Logger) (pre sched : List Action)
    (hm : (exec ML pre Process.boot).mutex = false)
    (hlog : ML cfg.LogLevel cfg.LogFormat = Except.ok logger)
    (hG : cfg.TermDelay = 0) :
    ∃ (h : Handler) (w : Watcher) (r : Run),
      (Process.after ML cfg pre sched).handlers = [h] ∧ h.goroutine = some w
      ∧ w.trace = (r.events cfg).take w.pc.rank
      ∧ timerOf cfg r.d = none
      ∧ (∀ timer, w.pc ≠ PC.selectWait timer)
      ∧ (∀ t, (t, Event.timerFired) ∉ w.trace)
      ∧ ((Process.after ML cfg pre sched).exited = none
          ∨ (Process.after ML cfg pre sched).exited = some 1)
      ∧ ((Process.after ML cfg pre sched).exited ≠ none →
          ∃ s2, r.second = some s2 ∧ SecondArrival h.delivered s2 r.e
            ∧ r.e ≤ (Process.after ML cfg pre sched).now)
      ∧ (h.delivered.length < 2 → (Process.after ML cfg pre sched).exited = none)
      ∧ (2 ≤ h.delivered.length → ∀ bs, 7 ≤ bs.length →
          (Process.after ML cfg pre (sched ++ runs bs)).exited = some 1
          ∧ (Process.after ML cfg pre (sched ++ runs bs)).now
              = (Process.after ML cfg pre sched).now) := by
  have hp := after_sound ML cfg logger pre sched hm hlog
  obtain ⟨hmx, h, w, r, hh, hs⟩ := hp
  have hp : Process.Sound cfg (Process.after ML cfg pre sched) := ⟨hmx, h, w, r, hh, hs⟩
  have hrank : (Process.after ML cfg pre sched).rank = w.pc.rank := by
    simp [Process.rank, hh, hs.rank_eq]
  have hexit : (Process.after ML cfg pre sched).exited ≠ none → 7 ≤ w.pc.rank := by
    intro hx
    by_contra h7
    exact hx (hp.exited_iff.2.1 (by omega))
  refine ⟨h, w, r, hh, hs.gor, hs.trace, by simp [timerOf, hG], ?_, ?_, ?_, ?_, ?_, ?_⟩
  · intro timer hpc
    have hag := hs.agrees
    rw [hpc] at hag
    exact hag.2.1 hG
  · intro t hmem
    rw [hs.trace] at hmem
    by_cases h5 : 5 ≤ w.pc.rank
    · obtain ⟨s2, hsec, _⟩ := hs.second_of_zero hG h5
      have := List.mem_of_mem_take hmem
      simp [Run.events, Run.wake, hsec] at this
    · have h4 : w.pc.rank ≤ 4 := by omega
      have h4m : (t, Event.timerFired) ∈ (r.events cfg).take 4 :=
        List.take_subset_take_left _ h4 hmem
      simp [Run.events] at h4m
  · by_cases h7 : (Process.after ML cfg pre sched).rank = 7
    · exact Or.inr (hp.exited_iff.1 h7)
    · exact Or.inl (hp.exited_iff.2.1 h7)
  · intro hx
    have h7 := hexit hx
    obtain ⟨s2, hsec, harr⟩ := hs.second_of_zero hG (by omega)
    exact ⟨s2, hsec, harr, (hs.ordered.2.1 (by omega)).2⟩
  · intro hlt
    by_contra hx
    have h7 := hexit hx
    obtain ⟨s2, _, harr⟩ := hs.second_of_zero hG (by omega)
    have := secondArrival_length _ _ _ harr
    omega
  · intro hd bs hbs
    rw [after_append]
    have := runs_reach_exit ML cfg bs _ hp (by simpa [Process.delivered, hh] using hd)
      (by omega)
    exact ⟨this.1, this.2.1⟩

theorem watcher_zero_grace_needs_second_witness :
    (exec sampleMakeLogger [] Process.boot).mutex = false
    ∧ sampleMakeLogger sampleConfigZero.LogLevel sampleConfigZero.LogFormat
        = Except.ok { id := 0 }
    ∧ sampleConfigZero.TermDelay = 0
    ∧ ∃ h, (Process.after sampleMakeLogger sampleConfigZero []
              [Action.deliver Signal.Interrupt, Action.run 0 true, Action.tick]).handlers = [h]
          ∧ (h.delivered.length < 2 →
              (Process.after sampleMakeLogger sampleConfigZero []
                [Action.deliver Signal.Interrupt, Action.run 0 true, Action.tick]).exited
                = none) :=
  ⟨by decide, by decide, by decide, by
    obtain ⟨h, _, _, hh, _, _, _, _, _, _, _, hlt, _⟩ :=
      watcher_zero_grace_needs_second sampleMakeLogger sampleConfigZero { id := 0 } []
        [Action.deliver Signal.Interrupt, Action.run 0 true, Action.tick]
        (by decide) (by decide) (by decide)
    exact ⟨h, hh, hlt⟩⟩

/-- C4: the code at the failing input. With a grace period of zero, one
interrupt is delivered and no second signal; the goroutine executes seven
statements, five nanoseconds pass, it is given seven more statements, and the
process has still not exited: the context is cancelled and the goroutine is
blocked at the receive of line 59. The doc comment of lines 23-26 says that,
when no second signal is caught, the program delays for the configured period
and then terminates, which for a period of zero is at once. -/
theorem zero_grace_one_signal_no_exit :
    (Process.after sampleMakeLogger sampleConfigZero []
      ([Action.deliver Signal.Interrupt] ++ runs (List.replicate 7 true)
        ++ List.replicate 5 Action.tick ++ runs (List.replicate 7 true))).exited = none
    ∧ (Process.after sampleMakeLogger sampleConfigZero []
      ([Action.deliver Signal.Interrupt] ++ runs (List.replicate 7 true)
        ++ List.replicate 5 Action.tick ++ runs (List.replicate 7 true))).handlers.map
          (fun h => (h.ctx.cancelled, h.delivered.length, h.goroutine.map (fun w => w.pc)))
        = [(true, 1, some PC.recvSecond)] := by
  decide

/-- What lines 58-61 do on every run, not only the one above: with a grace
period of zero, at every moment after a successful call, while at most one
signal has been delivered the process has not exited and the goroutine has got
no further than the wait; and with exactly one signal delivered, four
statements of the goroutine cancel the context and leave it blocked at the
receive of line 59, the channel empty. -/
theorem watcher_zero_grace_one_signal_blocks (ML : String → String → Except Error Logger)
    (cfg : Config) (logger : Logger) (pre sched : List Action)
    (hm : (exec ML pre Process.boot).mutex = false)
    (hlog : ML cfg.LogLevel cfg.LogFormat = Except.ok logger)
    (hG : cfg.TermDelay = 0) :
    ∃ (h : Handler) (w : Watcher),
      (Process.after ML cfg pre sched).handlers = [h] ∧ h.goroutine = some w
      ∧ (h.delivered.length ≤ 1 →
          (Process.after ML cfg pre sched).exited = none ∧ w.pc.rank ≤ 4)
      ∧ (h.delivered.length = 1 → ∀ bs, 4 ≤ bs.length →
          ∃ (h2 : Handler) (w2 : Watcher),
            (Process.after ML cfg pre (sched ++ runs bs)).handlers = [h2]
            ∧ h2.goroutine = some w2
            ∧ w2.pc = PC.recvSecond
            ∧ h2.c.buf = []
            ∧ h2.ctx = { cancelled := true, cancelCalls := 1 }
            ∧ (Process.after ML cfg pre (sched ++ runs bs)).exited = none
            ∧ (Process.after ML cfg pre (sched ++ runs bs)).now
                = (Process.after ML cfg pre sched).now) := by
  have hp := after_sound ML cfg logger pre sched hm hlog
  obtain ⟨hmx, h, w, r, hh, hs⟩ := hp
  have hp : Process.Sound cfg (Process.after ML cfg pre sched) := ⟨hmx, h, w, r, hh, hs⟩
  have hrank : (Process.after ML cfg pre sched).rank = w.pc.rank := by
    simp [Process.rank, hh, hs.rank_eq]
  refine ⟨h, w, hh, hs.gor, ?_, ?_⟩
  · intro hd
    have h4 : w.pc.rank ≤ 4 := by
      by_contra h5
      obtain ⟨s2, _, harr⟩ := hs.second_of_zero hG (by omega)
      have := secondArrival_length _ _ _ harr
      omega
    exact ⟨hp.exited_iff.2.1 (by omega), h4⟩
  · intro hd bs hbs
    rw [after_append]
    have hq := Process.Sound.exec ML cfg (runs bs) _ hp
    have hreach := runs_reach_wait ML cfg 4 bs _ hp (le_refl _)
      (by simp [Process.delivered, hh, hd]) (by omega)
    obtain ⟨hmq, h2, w2, r2, hh2, hs2⟩ := hq
    have hq : Process.Sound cfg (exec ML (runs bs) (Process.after ML cfg pre sched)) :=
      ⟨hmq, h2, w2, r2, hh2, hs2⟩
    have hrank2 : (exec ML (runs bs) (Process.after ML cfg pre sched)).rank = w2.pc.rank := by
      simp [Process.rank, hh2, hs2.rank_eq]
    have hd2 : h2.delivered.length = 1 := by
      have := hreach.2.2
      simp only [Process.delivered, hh2, hh] at this
      rw [this, hd]
    have h4 : w2.pc.rank = 4 := by
      have h4le : w2.pc.rank ≤ 4 := by
        by_contra h5
        obtain ⟨s2, _, harr⟩ := hs2.second_of_zero hG (by omega)
        have := secondArrival_length _ _ _ harr
        omega
      have := hreach.1
      omega
    have hpc : w2.pc = PC.recvSecond := by
      have hag := hs2.agrees
      cases hpc2 : w2.pc with
      | selectWait timer =>
        rw [hpc2] at hag
        exact absurd hG hag.2.1
      | recvSecond => rfl
      | _ => simp [hpc2, PC.rank] at h4
    have hbuf : h2.c.buf = [] := by
      have hlen := hs2.len
      have hrl := hs2.received_length.2.2 (by omega) (by omega)
      apply List.eq_nil_of_length_eq_zero
      omega
    exact ⟨h2, w2, hh2, hs2.gor, hpc, hbuf, (hq.cancelled_iff hh2).1 (by omega),
      hq.exited_iff.2.1 (by omega), hreach.2.1⟩

theorem watcher_zero_grace_one_signal_blocks_witness :
    (exec sampleMakeLogger [] Process.boot).mutex = false
    ∧ sampleMakeLogger sampleConfigZero.LogLevel sampleConfigZero.LogFormat
        = Except.ok { id := 0 }
    ∧ sampleConfigZero.TermDelay = 0
    ∧ ∃ h, (Process.after sampleMakeLogger sampleConfigZero []
              [Action.deliver Signal.SIGTERM, Action.tick, Action.run 0 true]).handlers = [h]
          ∧ (h.delivered.length ≤ 1 →
              (Process.after sampleMakeLogger sampleConfigZero []
                [Action.deliver Signal.SIGTERM, Action.tick, Action.run 0 true]).exited
                = none) :=
  ⟨by decide, by decide, by decide, by
    obtain ⟨h, w, hh, _, hle, _⟩ :=
      watcher_zero_grace_one_signal_blocks sampleMakeLogger sampleConfigZero { id := 0 } []
        [Action.deliver Signal.SIGTERM, Action.tick, Action.run 0 true]
        (by decide) (by decide) (by decide)
    exact ⟨h, hh, fun hd => (hle hd).1⟩⟩

theorem head_of_take_two (s : Signal) (buf L : List Signal)
    (h : (s :: buf).take 2 = L.take 2) (hL : 2 ≤ L.length) : buf.head? = L[1]? := by
  cases L with
  | nil => simp at hL
  | cons x L2 =>
    cases L2 with
    | nil => simp at hL
    | cons y L3 =>
      cases buf with
      | nil => simp at h
      | cons z rest =>
        simp only [List.take_succ_cons, List.take_zero, List.cons.injEq, and_true] at h
        simp [h.2]

/-- C9: the channel has capacity 2 and only the goroutine reads it. At every
moment of every run after a successful call, for any grace period: the first
two signals delivered are the first two of those received or still buffered,
in order, and while no more than two have been delivered none has been
dropped; if two have been delivered before the goroutine has read any, both are
in the buffer; if two have been delivered and the goroutine has read one and
not yet left the wait, the second is at the head of the buffer; and once two
have been delivered, seven statements of the goroutine end in the exit with
status 1, with no time passing (so on no timer) and no further delivery. -/
theorem burst_second_signal_buffered (ML : String → String → Except Error Logger)
    (cfg : Config) (logger : Logger) (pre sched : List Action)
    (hm : (exec ML pre Process.boot).mutex = false)
    (hlog : ML cfg.LogLevel cfg.LogFormat = Except.ok logger) :
    ∃ (h : Handler) (w : Watcher),
      (Process.after ML cfg pre sched).handlers = [h] ∧ h.goroutine = some w
      ∧ h.c.cap = 2
      ∧ (received w.trace ++ h.c.buf).take 2 = (h.delivered.map Prod.snd).take 2
      ∧ (h.delivered.length ≤ 2 → h.dropped = 0)
      ∧ (w.pc.rank = 0 → h.c.buf.take 2 = (h.delivered.map Prod.snd).take 2)
      ∧ (1 ≤ w.pc.rank → w.pc.rank ≤ 4 → 2 ≤ h.delivered.length →
          h.c.buf.head? = (h.delivered.map Prod.snd)[1]?)
      ∧ (2 ≤ h.delivered.length → ∀ bs, 7 ≤ bs.length →
          (Process.after ML cfg pre (sched ++ runs bs)).exited = some 1
          ∧ (Process.after ML cfg pre (sched ++ runs bs)).now
              = (Process.after ML cfg pre sched).now
          ∧ (Process.after ML cfg pre (sched ++ runs bs)).delivered = h.delivered) := by
  have hp := after_sound ML cfg logger pre sched hm hlog
  obtain ⟨hmx, h, w, r, hh, hs⟩ := hp
  have hp : Process.Sound cfg (Process.after ML cfg pre sched) := ⟨hmx, h, w, r, hh, hs⟩
  refine ⟨h, w, hh, hs.gor, hs.cap, hs.first2, ?_, ?_, ?_, ?_⟩
  · intro hd
    have hlen := hs.len
    have hdrop := hs.drop
    by_contra h0
    have := hdrop (Nat.pos_of_ne_zero h0)
    omega
  · intro h0
    have h2 := hs.first2
    rw [hs.received_eq.1 h0] at h2
    simpa using h2
  · intro h1 h4 hd
    have h2 := hs.first2
    rw [hs.received_eq.2 h1 h4] at h2
    exact head_of_take_two r.s _ _ h2 (by simpa using hd)
  · intro hd bs hbs
    rw [after_append]
    have := runs_reach_exit ML cfg bs _ hp (by simpa [Process.delivered, hh] using hd)
      (by omega)
    refine ⟨this.1, this.2.1, ?_⟩
    rw [this.2.2]
    simp [Process.delivered, hh]

theorem burst_second_signal_buffered_witness :
    (exec sampleMakeLogger [] Process.boot).mutex = false
    ∧ sampleMakeLogger sampleConfig.LogLevel sampleConfig.LogFormat = Except.ok { id := 0 }
    ∧ ∃ h, (Process.after sampleMakeLogger sampleConfig []
              [Action.deliver Signal.Interrupt, Action.deliver Signal.Interrupt,
               Action.run 0 true]).handlers = [h]
          ∧ (h.delivered.length ≤ 2 → h.dropped = 0) :=
  ⟨by decide, by decide, by
    obtain ⟨h, w, hh, _, _, _, hdrop, _⟩ :=
      burst_second_signal_buffered sampleMakeLogger sampleConfig { id := 0 } []
        [Action.deliver Signal.Interrupt, Action.deliver Signal.Interrupt,
         Action.run 0 true] (by decide) (by decide)
    exact ⟨h, hh, hdrop⟩⟩

/-! ## The grace period: claim C2 -/

theorem replicate_seven (a : Action) : List.replicate 7 a = [a, a, a, a, a, a, a] := rfl

theorem prompt_tick_armed (ML : String → String → Except Error Logger) (cfg : Config)
    (logger : Logger) (now : Int) (b : Bool) :
    exec ML (Action.tick :: List.replicate 7 (Action.run 0 b)) (armedAt cfg logger now)
      = armedAt cfg logger (now + 1) := by
  simp [replicate_seven, exec, Process.step, armedAt, Handler.step]

theorem prompt_deliver_armed (ML : String → String → Except Error Logger) (cfg : Config)
    (logger : Logger) (now : Int) (b : Bool) (sig : Signal) (hG : 0 < cfg.TermDelay) :
    exec ML (Action.deliver sig :: List.replicate 7 (Action.run 0 b)) (armedAt cfg logger now)
      = waitingAt cfg logger now sig now := by
  have hne : cfg.TermDelay ≠ 0 := ne_of_gt hG
  have hle : ¬ cfg.TermDelay ≤ 0 := not_le.mpr hG
  have hsig := mem_shutdownSignals sig
  simp [replicate_seven, exec, Process.step, armedAt, waitingAt, traceToWait, Handler.step,
    Handler.deliver, Chan.trySend, Watcher.goto, Token.cancel, hne, hsig, hle]

theorem prompt_tick_waiting (ML : String → String → Except Error Logger) (cfg : Config)
    (logger : Logger) (t0 now : Int) (s : Signal) (b : Bool)
    (hlt : now + 1 < t0 + cfg.TermDelay) :
    exec ML (Action.tick :: List.replicate 7 (Action.run 0 b)) (waitingAt cfg logger t0 s now)
      = waitingAt cfg logger t0 s (now + 1) := by
  have hle : ¬ t0 + cfg.TermDelay ≤ now + 1 := not_le.mpr hlt
  simp [replicate_seven, exec, Process.step, waitingAt, Handler.step, hle]

theorem prompt_tick_timeout (ML : String → String → Except Error Logger) (cfg : Config)
    (logger : Logger) (t0 now : Int) (s : Signal) (b : Bool)
    (heq : now + 1 = t0 + cfg.TermDelay) :
    exec ML (Action.tick :: List.replicate 7 (Action.run 0 b)) (waitingAt cfg logger t0 s now)
      = timedOutAt cfg logger t0 s := by
  simp [replicate_seven, exec, Process.step, waitingAt, timedOutAt, traceToWait, Handler.step,
    Watcher.goto, heq]

theorem prompt_deliver_waiting (ML : String → String → Except Error Logger) (cfg : Config)
    (logger : Logger) (t0 now : Int) (s s2 : Signal) (b : Bool)
    (hlt : now < t0 + cfg.TermDelay) :
    exec ML (Action.deliver s2 :: List.replicate 7 (Action.run 0 b))
        (waitingAt cfg logger t0 s now)
      = interruptedAt cfg logger t0 s now s2 := by
  have hle : ¬ t0 + cfg.TermDelay ≤ now := not_le.mpr hlt
  have hsig := mem_shutdownSignals s2
  simp [replicate_seven, exec, Process.step, waitingAt, interruptedAt, traceToWait,
    Handler.step, Handler.deliver, Chan.trySend, Watcher.goto, hsig, hle]

/-- One outside event, answered at once, leads from one of the four situations
to one of them. -/
theorem prompt_step (ML : String → String → Except Error Logger) (cfg : Config)
    (logger : Logger) (b : Bool) (e : Env) (p : Process) (hG : 0 < cfg.TermDelay)
    (hp : Prompt cfg logger p) :
    Prompt cfg logger (exec ML (e.action :: List.replicate 7 (Action.run 0 b)) p) := by
  rcases hp with ⟨now, rfl⟩ | ⟨t0, s, now, h0, hlt, rfl⟩ | ⟨t0, s, rfl⟩ |
    ⟨t0, s, t2, s2, h0, hlt, rfl⟩
  · cases e with
    | tick =>
      simp only [Env.action]
      rw [prompt_tick_armed]
      exact Or.inl ⟨_, rfl⟩
    | deliver sig =>
      simp only [Env.action]
      rw [prompt_deliver_armed ML cfg logger now b sig hG]
      exact Or.inr (Or.inl ⟨now, sig, now, le_refl _, by omega, rfl⟩)
  · cases e with
    | tick =>
      simp only [Env.action]
      by_cases hnext : now + 1 < t0 + cfg.TermDelay
      · rw [prompt_tick_waiting ML cfg logger t0 now s b hnext]
        exact Or.inr (Or.inl ⟨t0, s, now + 1, by omega, hnext, rfl⟩)
      · rw [prompt_tick_timeout ML cfg logger t0 now s b (by omega)]
        exact Or.inr (Or.inr (Or.inl ⟨t0, s, rfl⟩))
    | deliver sig =>
      simp only [Env.action]
      rw [prompt_deliver_waiting ML cfg logger t0 now s sig b hlt]
      exact Or.inr (Or.inr (Or.inr ⟨t0, s, now, sig, h0, hlt, rfl⟩))
  · rw [exec_exited ML _ _ 1 rfl]
    exact Or.inr (Or.inr (Or.inl ⟨t0, s, rfl⟩))
  · rw [exec_exited ML _ _ 1 rfl]
    exact Or.inr (Or.inr (Or.inr ⟨t0, s, t2, s2, h0, hlt, rfl⟩))

theorem prompt_exec (ML : String → String → Except Error Logger) (cfg : Config)
    (logger : Logger) (b : Bool) (env : List Env) (p : Process) (hG : 0 < cfg.TermDelay)
    (hp : Prompt cfg logger p) : Prompt cfg logger (exec ML (prompt b env) p) := by
  induction env generalizing p with
  | nil => exact hp
  | cons e rest ih =>
    simp only [prompt]
    rw [exec_append]
    exact ih _ (prompt_step ML cfg logger b e p hG hp)

/-- The process right after a successful call. -/
theorem after_nil_armed (ML : String → String → Except Error Logger) (cfg : Config)
    (logger : Logger) (pre : List Action)
    (hm : (exec ML pre Process.boot).mutex = false)
    (hlog : ML cfg.LogLevel cfg.LogFormat = Except.ok logger) :
    (SetupSignalHandler ML cfg (exec ML pre Process.boot)).2
      = armedAt cfg logger (exec ML pre Process.boot).now := by
  rw [setup_ok_eq ML cfg logger _ hm hlog]
  simp [armedAt, boot_unlocked_handlers ML pre hm, boot_unlocked_live ML pre hm,
    shutdownSignals]

theorem after_prompt (ML : String → String → Except Error Logger) (cfg : Config)
    (logger : Logger) (pre : List Action) (b : Bool) (env : List Env)
    (hm : (exec ML pre Process.boot).mutex = false)
    (hlog : ML cfg.LogLevel cfg.LogFormat = Except.ok logger) (hG : 0 < cfg.TermDelay) :
    Prompt cfg logger (Process.after ML cfg pre (prompt b env)) := by
  unfold Process.after
  rw [after_nil_armed ML cfg logger pre hm hlog]
  exact prompt_exec ML cfg logger b env _ hG (Or.inl ⟨_, rfl⟩)

/-- C2: with a grace period `G > 0`, after a successful call.
Under every interleaving: the process has either not exited or exited with
status 1; if it has exited, a first signal had arrived at some `t0` and the
goroutine was woken either by the timer, and then the clock is at least
`t0 + G`, or by receiving the second signal delivered, which had arrived at some
`t2` no later than the clock; so with at most one signal delivered an exit
never comes before `t0 + G`; and once two signals have been delivered, seven
statements of the goroutine end in the exit with no time passing.
When the goroutine reacts at once to every delivery and clock tick, the run is
in one of four situations: no signal yet and no exit; one signal at `t0`, the
clock before `t0 + G`, the context cancelled and no exit; one signal at `t0`
and the exit at exactly `t0 + G`; or a second signal at `t2 < t0 + G` and the
exit at exactly `t2`. -/
theorem watcher_exits_at_timer_or_second_signal
    (ML : String → String → Except Error Logger) (cfg : Config) (logger : Logger)
    (pre sched : List Action) (env : List Env) (b : Bool)
    (hm : (exec ML pre Process.boot).mutex = false)
    (hlog : ML cfg.LogLevel cfg.LogFormat = Except.ok logger)
    (hG : 0 < cfg.TermDelay) :
    (∃ (h : Handler) (w : Watcher) (r : Run),
      (Process.after ML cfg pre sched).handlers = [h] ∧ h.goroutine = some w
      ∧ w.trace = (r.events cfg).take w.pc.rank
      ∧ ((Process.after ML cfg pre sched).exited = none
          ∨ (Process.after ML cfg pre sched).exited = some 1)
      ∧ ((Process.after ML cfg pre sched).exited ≠ none →
          ∃ (t0 : Int) (rest : List (Int × Signal)), h.delivered = (t0, r.s) :: rest
            ∧ ((r.second = none
                  ∧ t0 + cfg.TermDelay ≤ (Process.after ML cfg pre sched).now)
              ∨ (∃ (t2 : Int) (s2 : Signal) (rest2 : List (Int × Signal)),
                  r.second = some s2 ∧ rest = (t2, s2) :: rest2
                  ∧ t2 ≤ (Process.after ML cfg pre sched).now)))
      ∧ (h.delivered.length ≤ 1 → (Process.after ML cfg pre sched).exited ≠ none →
          ∃ (t0 : Int) (s : Signal), h.delivered = [(t0, s)]
            ∧ t0 + cfg.TermDelay ≤ (Process.after ML cfg pre sched).now)
      ∧ (2 ≤ h.delivered.length → ∀ bs, 7 ≤ bs.length →
          (Process.after ML cfg pre (sched ++ runs bs)).exited = some 1
          ∧ (Process.after ML cfg pre (sched ++ runs bs)).now
              = (Process.after ML cfg pre sched).now))
    ∧ (∃ (h2 : Handler), (Process.after ML cfg pre (prompt b env)).handlers = [h2]
        ∧ ((h2.delivered = [] ∧ (Process.after ML cfg pre (prompt b env)).exited = none
              ∧ h2.ctx.cancelled = false)
          ∨ (∃ (t0 : Int) (s : Signal), h2.delivered = [(t0, s)]
              ∧ (Process.after ML cfg pre (prompt b env)).now < t0 + cfg.TermDelay
              ∧ (Process.after ML cfg pre (prompt b env)).exited = none
              ∧ h2.ctx.cancelled = true)
          ∨ (∃ (t0 : Int) (s : Signal), h2.delivered = [(t0, s)]
              ∧ (Process.after ML cfg pre (prompt b env)).now = t0 + cfg.TermDelay
              ∧ (Process.after ML cfg pre (prompt b env)).exited = some 1)
          ∨ (∃ (t0 : Int) (s : Signal) (t2 : Int) (s2 : Signal),
              h2.delivered = [(t0, s), (t2, s2)] ∧ t0 ≤ t2 ∧ t2 < t0 + cfg.TermDelay
              ∧ (Process.after ML cfg pre (prompt b env)).now = t2
              ∧ (Process.after ML cfg pre (prompt b env)).exited = some 1))) := by
  constructor
  · have hp := after_sound ML cfg logger pre sched hm hlog
    obtain ⟨hmx, h, w, r, hh, hs⟩ := hp
    have hp : Process.Sound cfg (Process.after ML cfg pre sched) := ⟨hmx, h, w, r, hh, hs⟩
    have hrank : (Process.after ML cfg pre sched).rank = w.pc.rank := by
      simp [Process.rank, hh, hs.rank_eq]
    have hexit : (Process.after ML cfg pre sched).exited ≠ none → 7 ≤ w.pc.rank := by
      intro hx
      by_contra h7
      exact hx (hp.exited_iff.2.1 (by omega))
    have hcause : (Process.after ML cfg pre sched).exited ≠ none →
        ∃ (t0 : Int) (rest : List (Int × Signal)), h.delivered = (t0, r.s) :: rest
          ∧ ((r.second = none
                ∧ t0 + cfg.TermDelay ≤ (Process.after ML cfg pre sched).now)
            ∨ (∃ (t2 : Int) (s2 : Signal) (rest2 : List (Int × Signal)),
                r.second = some s2 ∧ rest = (t2, s2) :: rest2
                ∧ t2 ≤ (Process.after ML cfg pre sched).now)) := by
      intro hx
      have h7 := hexit hx
      obtain ⟨t0, rest, hD, ht0⟩ := hs.first_arrival (by omega)
      have hord := hs.ordered
      have h4 := hord.1 (by omega)
      have h5 := hord.2.1 (by omega)
      have hw := hs.woken (by omega)
      refine ⟨t0, rest, hD, ?_⟩
      unfold Run.Woken at hw
      cases hsec : r.second with
      | none =>
        rw [hsec] at hw
        exact Or.inl ⟨rfl, by omega⟩
      | some s2 =>
        rw [hsec] at hw
        obtain ⟨x, t2, rest2, hD2, ht2⟩ := hw
        rw [hD] at hD2
        simp only [List.cons.injEq] at hD2
        exact Or.inr ⟨t2, s2, rest2, rfl, hD2.2, by omega⟩
    refine ⟨h, w, r, hh, hs.gor, hs.trace, ?_, hcause, ?_, ?_⟩
    · by_cases h7 : (Process.after ML cfg pre sched).rank = 7
      · exact Or.inr (hp.exited_iff.1 h7)
      · exact Or.inl (hp.exited_iff.2.1 h7)
    · intro hd hx
      obtain ⟨t0, rest, hD, hc⟩ := hcause hx
      rcases hc with ⟨_, ht⟩ | ⟨t2, s2, rest2, _, hrest, _⟩
      · cases rest with
        | nil => exact ⟨t0, r.s, hD, ht⟩
        | cons y ys =>
          rw [hD] at hd
          simp at hd
      · rw [hD, hrest] at hd
        simp at hd
    · intro hd bs hbs
      rw [after_append]
      have := runs_reach_exit ML cfg bs _ hp (by simpa [Process.delivered, hh] using hd)
        (by omega)
      exact ⟨this.1, this.2.1⟩
  · have hq := after_prompt ML cfg logger pre b env hm hlog hG
    rcases hq with ⟨now, he⟩ | ⟨t0, s, now, h0, hlt, he⟩ | ⟨t0, s, he⟩ |
      ⟨t0, s, t2, s2, h0, hlt, he⟩
    · rw [he]
      exact ⟨_, rfl, Or.inl ⟨rfl, rfl, rfl⟩⟩
    · rw [he]
      exact ⟨_, rfl, Or.inr (Or.inl ⟨t0, s, rfl, hlt, rfl, rfl⟩)⟩
    · rw [he]
      exact ⟨_, rfl, Or.inr (Or.inr (Or.inl ⟨t0, s, rfl, rfl, rfl⟩))⟩
    · rw [he]
      exact ⟨_, rfl, Or.inr (Or.inr (Or.inr ⟨t0, s, t2, s2, rfl, h0, hlt, rfl, rfl⟩))⟩

set_option maxRecDepth 100000 in
theorem watcher_exits_at_timer_or_second_signal_witness :
    (exec sampleMakeLogger [] Process.boot).mutex = false
    ∧ sampleMakeLogger sampleConfig.LogLevel sampleConfig.LogFormat = Except.ok { id := 0 }
    ∧ 0 < sampleConfig.TermDelay
    ∧ (Process.after sampleMakeLogger sampleConfig []
          (prompt true [Env.tick, Env.deliver Signal.SIGTERM, Env.tick, Env.tick,
            Env.tick])).exited = some 1
    ∧ (Process.after sampleMakeLogger sampleConfig []
          (prompt true [Env.tick, Env.deliver Signal.SIGTERM, Env.tick, Env.tick,
            Env.tick])).now = 3
    ∧ ∃ (h2 : Handler),
        (Process.after sampleMakeLogger sampleConfig []
          (prompt true [Env.tick, Env.deliver Signal.SIGTERM, Env.tick, Env.tick,
            Env.tick])).handlers = [h2] :=
  ⟨by decide, by decide, by decide, by decide, by decide, by
    obtain ⟨_, h2, hh2, _⟩ :=
      watcher_exits_at_timer_or_second_signal sampleMakeLogger sampleConfig { id := 0 } []
        [Action.deliver Signal.SIGTERM] [Env.tick, Env.deliver Signal.SIGTERM, Env.tick,
          Env.tick, Env.tick] true (by decide) (by decide) (by decide)
    exact ⟨h2, hh2⟩⟩

end Rootcmd
